import Mathlib

/-!
Verification of the germinate seed-expansion engine against its
natural-language specification.  The definitions below are a shallow
embedding of `germinate/germinator.py` and `germinate/seeds.py`:
Python dicts become association lists iterated in insertion order,
Python sets become insertion-ordered duplicate-free lists, Python
exceptions become `Except String`, and the mutually recursive
dependency walk carries an explicit fuel argument.  External
collaborators (the apt version comparator, the dependency-field parser,
archive fetching) enter only through their interfaces, as the spec
prescribes.
-/

namespace Germinate

/-! ## Association lists (Python dicts, determinised to insertion order) -/

/-- Lookup of the first binding of a key (Python `d[k]` when present). -/
def aget {κ α : Type} [DecidableEq κ] : List (κ × α) → κ → Option α
  | [], _ => none
  | (k', v) :: rest, k => if k' = k then some v else aget rest k

/-- Python `d[k] = v`: update in place if present, else append. -/
def aset {κ α : Type} [DecidableEq κ] : List (κ × α) → κ → α → List (κ × α)
  | [], k, v => [(k, v)]
  | (k', v') :: rest, k, v =>
      if k' = k then (k, v) :: rest else (k', v') :: aset rest k v

/-- Python `k in d`. -/
def amem {κ α : Type} [DecidableEq κ] (m : List (κ × α)) (k : κ) : Bool :=
  (aget m k).isSome

theorem aget_aset_self {κ α : Type} [DecidableEq κ]
    (m : List (κ × α)) (k : κ) (v : α) : aget (aset m k v) k = some v := by
  induction m with
  | nil => simp [aset, aget]
  | cons hd tl ih =>
      by_cases h : hd.1 = k
      · simp [aset, aget, h]
      · simp [aset, aget, h, ih]

theorem aget_aset_ne {κ α : Type} [DecidableEq κ]
    (m : List (κ × α)) (k k' : κ) (v : α) (h : k ≠ k') :
    aget (aset m k v) k' = aget m k' := by
  induction m with
  | nil => simp [aset, aget, h]
  | cons hd tl ih =>
      by_cases hh : hd.1 = k
      · simp [aset, aget, hh, h]
      · simp [aset, aget, hh, ih]

/-! ## Python sets, determinised to insertion-ordered lists -/

/-- Python `s.add(x)`. -/
def sadd (l : List String) (x : String) : List String :=
  if x ∈ l then l else l ++ [x]

/-- Python `s |= xs`. -/
def sunion (l : List String) (xs : List String) : List String :=
  xs.foldl sadd l

/-- Python `s -= xs`. -/
def sminus (l : List String) (xs : List String) : List String :=
  l.filter (fun x => ¬ x ∈ xs)

/-- Python `s.discard(x)`. -/
def sdiscard (l : List String) (x : String) : List String :=
  l.filter (fun y => y ≠ x)

/-! ## Python string helpers, over the character lists of `String` -/

def pyStartsWith (s : String) (p : List Char) : Bool := p.isPrefixOf s.data

def pyEndsWith (s : String) (p : List Char) : Bool :=
  p.reverse.isPrefixOf s.data.reverse

def strMk (cs : List Char) : String := ⟨cs⟩

/-- Python `"".join` over a list of strings. -/
def strJoin (ps : List String) : String :=
  strMk (ps.foldr (fun s acc => s.data ++ acc) [])

def pyDrop (s : String) (n : Nat) : String := strMk (s.data.drop n)

def pyDropRight (s : String) (n : Nat) : String :=
  strMk (s.data.take (s.data.length - n))

def pyLower (s : String) : String := strMk (s.data.map Char.toLower)

def isPySpace (c : Char) : Bool :=
  c = ' ' ∨ c = '\t' ∨ c = '\n' ∨ c = '\r' ∨ c = '\x0c' ∨ c = '\x0b'

/-- Python `str.strip()`. -/
def pyStrip (s : String) : String :=
  strMk (((s.data.dropWhile isPySpace).reverse.dropWhile isPySpace).reverse)

def pySplitGo : List Char → List Char → List String
  | [], w => if w = [] then [] else [strMk w.reverse]
  | c :: rest, w =>
      if isPySpace c then
        if w = [] then pySplitGo rest []
        else strMk w.reverse :: pySplitGo rest []
      else pySplitGo rest (c :: w)

/-- Python `str.split()` (split on whitespace runs, dropping empties). -/
def pySplit (s : String) : List String := pySplitGo s.data []

/-- Index of the first occurrence of a character (Python `str.find`). -/
def chFind : List Char → Char → Option Nat
  | [], _ => none
  | c :: rest, t =>
      if c = t then some 0
      else match chFind rest t with
           | some i => some (i + 1)
           | none => none

/-- Index of the last occurrence of a character (Python `str.rfind`). -/
def chRFind (cs : List Char) (t : Char) : Option Nat :=
  match chFind cs.reverse t with
  | some i => some (cs.length - 1 - i)
  | none => none

def pyTitleGo : List Char → Bool → List Char
  | [], _ => []
  | c :: rest, prevAlpha =>
      if c.isAlpha then
        (if prevAlpha then c.toLower else c.toUpper) :: pyTitleGo rest true
      else c :: pyTitleGo rest false

/-- Python `str.title()`: uppercase the first letter of each alphabetic run. -/
def pyTitle (s : String) : String := strMk (pyTitleGo s.data false)

/-- Code-point strict ordering used by Python string comparison. -/
def chLt : List Char → List Char → Bool
  | [], [] => false
  | [], _ :: _ => true
  | _ :: _, [] => false
  | a :: as, b :: bs =>
      if a.toNat < b.toNat then true
      else if b.toNat < a.toNat then false
      else chLt as bs

def strLeB (a b : String) : Bool := ¬ chLt b.data a.data

def pyInsertSorted (x : String) : List String → List String
  | [] => [x]
  | y :: rest => if strLeB x y then x :: y :: rest else y :: pyInsertSorted x rest

/-- Python `sorted` on a list of strings. -/
def pysort (l : List String) : List String := l.foldr pyInsertSorted []

theorem mem_pyInsertSorted (x y : String) (l : List String) :
    y ∈ pyInsertSorted x l ↔ y = x ∨ y ∈ l := by
  induction l with
  | nil => simp [pyInsertSorted]
  | cons hd tl ih =>
      by_cases h : strLeB x hd = true
      · simp [pyInsertSorted, h]
      · simp [pyInsertSorted, h, ih]; tauto

theorem mem_pysort (x : String) (l : List String) :
    x ∈ pysort l ↔ x ∈ l := by
  induction l with
  | nil => simp [pysort]
  | cons hd tl ih =>
      simp only [pysort] at *
      simp [List.foldr, mem_pyInsertSorted, ih]

/-! ## Substitution variables (`Germinator._substitute_seed_vars`)

The Python code splits the package expression with
`re.split(r'(\${.*?})', pkg)`, keeping the (non-greedy) `${...}`
matches as their own pieces.  Package expressions are single-line, so
the newline exclusion of `.` is immaterial. -/

/-- Does a `${...}` match of the (non-greedy) pattern begin at this
character?  It does when the character is `$`, the next one is `{`, and
a closing `}` occurs later. -/
def tokGuard (c : Char) (rest : List Char) : Prop :=
  c = '$' ∧ rest.head? = some '\x7b' ∧ rest.tail.contains '\x7d' = true

instance (c : Char) (rest : List Char) : Decidable (tokGuard c rest) := by
  unfold tokGuard; infer_instance

/-- Scanner state for `re.split(r'(\${.*?})', pkg)`: outside a match
(accumulating a reversed literal piece), on the `{` right after a
match's `$`, or inside a match (accumulating the reversed match). -/
inductive ScanMode : Type
  | out (lit : List Char)
  | brace (tk : List Char)
  | inTok (tk : List Char)

/-- One-character-at-a-time scan of the split.  A match is entered only
when `tokGuard` holds, which guarantees the closing `}` exists, so the
end-of-input cases for the two in-match modes are unreachable. -/
def splitScan : List Char → ScanMode → List (List Char)
  | [], .out lit => [lit.reverse]
  | [], .brace tk => [tk.reverse]
  | [], .inTok tk => [tk.reverse]
  | c :: rest, .out lit =>
      if tokGuard c rest then
        lit.reverse :: splitScan rest (.brace [c])
      else splitScan rest (.out (c :: lit))
  | c :: rest, .brace tk => splitScan rest (.inTok (c :: tk))
  | c :: rest, .inTok tk =>
      if c = '\x7d' then (c :: tk).reverse :: splitScan rest (.out [])
      else splitScan rest (.inTok (c :: tk))

/-- `re.split` with the capture group kept: text pieces interleaved with
`${...}` matches, empty pieces included.  Package expressions are
single-line, so the newline exclusion of `.` is immaterial. -/
def splitSubst (cs : List Char) : List (List Char) :=
  splitScan cs (.out [])

/-- Does the expression contain a `${...}` token anywhere? -/
def hasTokB : List Char → Bool
  | [] => false
  | c :: rest => decide (tokGuard c rest) || hasTokB rest

/-- Is this piece a `${...}` token (Python's
`piece.startswith("${") and piece.endswith("}")`)?  If so, return the
lower-cased variable name. -/
def pieceTokenName (piece : String) : Option String :=
  if pyStartsWith piece ['$', '\x7b'] ∧ pyEndsWith piece ['\x7d'] then
    some (pyLower (pyDropRight (pyDrop piece 2) 1))
  else none

/-- One step of the substitution loop, for a single piece. -/
def substPiece (substvars : List (String × List String))
    (substituted : List (List String)) (piece : String) :
    List (List String) :=
  match pieceTokenName piece with
  | some name =>
      match aget substvars name with
      | some values =>
          values.foldl
            (fun newsubst value =>
              newsubst ++ substituted.map (fun ps => ps ++ [value]))
            []
      | none => substituted
  | none => substituted.map (fun ps => ps ++ [piece])

/-- `Germinator._substitute_seed_vars`. -/
def substituteSeedVars (substvars : List (String × List String))
    (pkg : String) : List String :=
  let pieces := (splitSubst pkg.data).map strMk
  let substituted := pieces.foldl (substPiece substvars) [[]]
  substituted.map strJoin

/-- The `${...}` tokens of an expression, in order, lower-cased. -/
def tokenNames (pkg : String) : List String :=
  ((splitSubst pkg.data).map strMk).filterMap pieceTokenName

/-- Does the expression contain a `${...}` token at all? -/
def hasTok (pkg : String) : Bool := hasTokB pkg.data

/-! ## The reason-priority rule (`Germinator._remember_why`) -/

/-- `Germinator._remember_why`: record why a package was selected,
keeping the better-priority reason. -/
def rememberWhy (reasons : List (String × (String × Bool × Bool)))
    (pkg why : String) (buildTree recommends : Bool) :
    List (String × (String × Bool × Bool)) :=
  match aget reasons pkg with
  | some (_, oldBuildTree, oldRecommends) =>
      if !oldBuildTree && buildTree then reasons
      else if oldBuildTree == buildTree && (!oldRecommends || recommends) then
        reasons
      else aset reasons pkg (why, buildTree, recommends)
  | none => aset reasons pkg (why, buildTree, recommends)

/-- The spec's priority rule, written from its words: a new reason
strictly wins iff it is in the dependency tree while the old one is in
the build tree, or both are in the same tree and the new one is a
dependency while the old one is a recommendation. -/
def strictlyWins (newBuildTree newRecommends oldBuildTree oldRecommends :
    Bool) : Bool :=
  (oldBuildTree && !newBuildTree) ||
    ((newBuildTree == oldBuildTree) && (oldRecommends && !newRecommends))

/-- C5: a recorded reason for a package overwrites an existing one
exactly when the new reason strictly wins (dependency tree beats build
tree; within one tree kind the earlier reason is kept except that a
dependency beats a recommendation); a package with no reason gets the
new reason stored. -/
theorem c5_reason_priority
    (reasons : List (String × (String × Bool × Bool)))
    (pkg why : String) (bt rcm : Bool) :
    rememberWhy reasons pkg why bt rcm =
      match aget reasons pkg with
      | none => aset reasons pkg (why, bt, rcm)
      | some (_, obt, orec) =>
          if strictlyWins bt rcm obt orec then
            aset reasons pkg (why, bt, rcm)
          else reasons := by
  cases h : aget reasons pkg with
  | none => simp [rememberWhy, h]
  | some v =>
      obtain ⟨w, obt, orec⟩ := v
      cases obt <;> cases orec <;> cases bt <;> cases rcm <;>
        simp [rememberWhy, h, strictlyWins]

/-! ### Counting lemmas for substitution expansion -/

/-- The fan-out factor a single piece contributes. -/
def pieceFactor (sv : List (String × List String)) (piece : String) : Nat :=
  match pieceTokenName piece with
  | some nm =>
      match aget sv nm with
      | some vs => vs.length
      | none => 1
  | none => 1

theorem foldl_values_length (S : List (List String)) (values : List String)
    (A : List (List String)) :
    (values.foldl
      (fun newsubst value => newsubst ++ S.map (fun ps => ps ++ [value]))
      A).length = A.length + values.length * S.length := by
  induction values generalizing A with
  | nil => simp
  | cons v vs ih =>
      simp only [List.foldl_cons, ih, List.length_append, List.length_map,
        List.length_cons, Nat.succ_mul]
      omega

theorem substPiece_length (sv : List (String × List String))
    (S : List (List String)) (p : String) :
    (substPiece sv S p).length = pieceFactor sv p * S.length := by
  unfold substPiece pieceFactor
  cases htok : pieceTokenName p with
  | none => simp
  | some nm =>
      cases hv : aget sv nm with
      | none => simp [hv]
      | some vs => simp [hv, foldl_values_length]

theorem foldl_substPiece_length (sv : List (String × List String)) :
    ∀ (pieces : List String) (S : List (List String)),
    (pieces.foldl (substPiece sv) S).length =
      S.length * (pieces.map (pieceFactor sv)).prod := by
  intro pieces
  induction pieces with
  | nil => intro S; simp
  | cons p ps ih =>
      intro S
      simp only [List.foldl_cons, ih, substPiece_length, List.map_cons,
        List.prod_cons]
      ring

theorem prod_factors_of_defined (sv : List (String × List String))
    (pieces : List String)
    (hdef : ∀ nm ∈ pieces.filterMap pieceTokenName, (aget sv nm).isSome) :
    (pieces.map (pieceFactor sv)).prod =
      ((pieces.filterMap pieceTokenName).map
        (fun nm => ((aget sv nm).getD []).length)).prod := by
  induction pieces with
  | nil => simp
  | cons p ps ih =>
      cases htok : pieceTokenName p with
      | none =>
          rw [List.filterMap_cons_none htok] at hdef ⊢
          simp only [List.map_cons, List.prod_cons]
          rw [ih hdef]
          simp [pieceFactor, htok]
      | some nm =>
          rw [List.filterMap_cons_some htok] at hdef ⊢
          have hs : (aget sv nm).isSome :=
            hdef nm (List.mem_cons_self _ _)
          cases hv : aget sv nm with
          | none => rw [hv] at hs; simp at hs
          | some vs =>
              simp only [List.map_cons, List.prod_cons]
              rw [ih (fun nm' hnm' => hdef nm' (List.mem_cons_of_mem _ hnm'))]
              simp [pieceFactor, htok, hv]

theorem splitScan_of_no_tok : ∀ (cs lit : List Char), hasTokB cs = false →
    splitScan cs (.out lit) = [lit.reverse ++ cs] := by
  intro cs
  induction cs with
  | nil => intro lit _; simp [splitScan]
  | cons c rest ih =>
      intro lit h
      simp only [hasTokB, Bool.or_eq_false_iff, decide_eq_false_iff_not] at h
      obtain ⟨hg, hrest⟩ := h
      rw [splitScan, if_neg hg, ih (c :: lit) hrest]
      simp

theorem pieceTokenName_of_no_tok {cs : List Char}
    (h : hasTokB cs = false) : pieceTokenName (strMk cs) = none := by
  unfold pieceTokenName
  split
  · rename_i hcond
    obtain ⟨hpre, hpost⟩ := hcond
    exfalso
    unfold pyStartsWith strMk at hpre
    cases cs with
    | nil => simp [List.isPrefixOf] at hpre
    | cons c cs' =>
        cases cs' with
        | nil => simp [List.isPrefixOf] at hpre
        | cons c2 rest =>
            simp only [List.isPrefixOf, List.isPrefixOf_nil_left,
              Bool.and_true, Bool.and_eq_true, beq_iff_eq] at hpre
            obtain ⟨hc, hc2⟩ := hpre
            subst hc; subst hc2
            rcases rest.eq_nil_or_concat with rfl | ⟨ys, y, rfl⟩
            · simp [pyEndsWith, strMk, List.isPrefixOf] at hpost
            · simp only [List.concat_eq_append] at h hpost
              have hy : y = '\x7d' := by
                simp [pyEndsWith, strMk, List.isPrefixOf] at hpost
                exact hpost.symm
              subst hy
              have : hasTokB ('$' :: '\x7b' :: (ys ++ ['\x7d'])) = true := by
                simp [hasTokB, tokGuard]
              rw [h] at this
              exact Bool.false_ne_true this
  · rfl

/-- The cartesian product of a list of value lists, one tuple per
combination, in the order the expansion's nested loops produce: the
FIRST variable varies fastest (a later variable's value changes only
after all combinations of the earlier ones have been listed). -/
def tupleProd : List (List String) → List (List String)
  | [] => [[]]
  | vs :: rest =>
      (tupleProd rest).flatMap (fun t => vs.map (fun v => v :: t))

/-- Render the split pieces of a package expression against one tuple
of chosen values: each `${...}` token consumes the tuple's next value,
every other piece stands for itself. -/
def renderPieces : List String → List String → List String
  | [], _ => []
  | p :: ps, tup =>
      match pieceTokenName p with
      | some _ =>
          match tup with
          | v :: tv => v :: renderPieces ps tv
          | [] => renderPieces ps []
      | none => p :: renderPieces ps tup

theorem foldl_append_map (S : List (List String)) (values : List String) :
    ∀ A, values.foldl
      (fun newsubst value => newsubst ++ S.map (fun ps => ps ++ [value]))
      A =
      A ++ values.flatMap (fun v => S.map (fun ps => ps ++ [v])) := by
  induction values with
  | nil => intro A; simp
  | cons v vs ih =>
      intro A
      simp only [List.foldl_cons, ih, List.flatMap_cons, List.append_assoc]

theorem flatMap_single {α β : Type} (f : α → β) (l : List α) :
    (l.flatMap (fun t => [f t])) = l.map f := by
  induction l with
  | nil => rfl
  | cons t ts ih => simp only [List.flatMap_cons, ih, List.map_cons]; rfl

/-- The substitution loop computes exactly the cartesian product: each
output piece-list is one starting accumulator entry extended by the
pieces rendered with one tuple of chosen values. -/
theorem foldl_substPiece_combos (sv : List (String × List String)) :
    ∀ (pieces : List String) (A : List (List String)),
      (∀ nm ∈ pieces.filterMap pieceTokenName, (aget sv nm).isSome) →
      pieces.foldl (substPiece sv) A =
        (tupleProd ((pieces.filterMap pieceTokenName).map
            (fun nm => (aget sv nm).getD []))).flatMap
          (fun t => A.map (fun xs => xs ++ renderPieces pieces t)) := by
  intro pieces
  induction pieces with
  | nil =>
      intro A _
      simp [tupleProd, renderPieces]
  | cons p ps ih =>
      intro A hdef
      cases htok : pieceTokenName p with
      | none =>
          rw [List.filterMap_cons_none htok] at hdef ⊢
          simp only [List.foldl_cons]
          rw [show substPiece sv A p = A.map (fun ps2 => ps2 ++ [p]) by
            unfold substPiece; rw [htok]]
          rw [ih _ hdef]
          congr 1
          funext t
          rw [List.map_map]
          have hrend : renderPieces (p :: ps) t = p :: renderPieces ps t := by
            simp only [renderPieces, htok]
          rw [hrend]
          apply List.map_congr_left
          intro xs _
          simp [List.append_assoc]
      | some nm =>
          rw [List.filterMap_cons_some htok] at hdef ⊢
          have hs := hdef nm (List.mem_cons_self _ _)
          cases hv : aget sv nm with
          | none => rw [hv] at hs; simp at hs
          | some values =>
              simp only [List.foldl_cons]
              rw [show substPiece sv A p =
                  values.flatMap (fun v => A.map (fun ps2 => ps2 ++ [v])) by
                unfold substPiece
                rw [htok]
                dsimp only
                rw [hv]
                dsimp only
                rw [foldl_append_map]
                simp]
              rw [ih _ (fun nm' h' => hdef nm' (List.mem_cons_of_mem _ h'))]
              simp only [List.map_cons, tupleProd, List.flatMap_assoc,
                List.flatMap_map, hv, Option.getD_some]
              congr 1
              funext t
              rw [List.map_flatMap]
              congr 1
              funext v
              rw [List.map_map]
              have hrend : renderPieces (p :: ps) (v :: t) =
                  v :: renderPieces ps t := by
                simp only [renderPieces, htok]
              rw [hrend]
              apply List.map_congr_left
              intro xs _
              simp [List.append_assoc]

/-- C9: substitution expansion is cartesian.  When every `${var}`
token names a defined variable, the expansion is exactly the cartesian
product of the variables' value lists: one entry per combination of
values (the first variable varying fastest), each entry being the
split pieces rendered with that combination; consequently the
expansion's length is the product of the value counts.  And with an
empty substvars table, an input with no `${...}` token expands to the
singleton list of itself. -/
theorem c9_substitution_cartesian :
    (∀ (sv : List (String × List String)) (pkg : String),
        (∀ nm ∈ tokenNames pkg, (aget sv nm).isSome) →
        substituteSeedVars sv pkg =
          (tupleProd ((tokenNames pkg).map
              (fun nm => (aget sv nm).getD []))).map
            (fun t => strJoin (renderPieces
              ((splitSubst pkg.data).map strMk) t))) ∧
    (∀ (sv : List (String × List String)) (pkg : String),
        (∀ nm ∈ tokenNames pkg, (aget sv nm).isSome) →
        (substituteSeedVars sv pkg).length =
          ((tokenNames pkg).map
            (fun nm => ((aget sv nm).getD []).length)).prod) ∧
    (∀ pkg : String, hasTok pkg = false →
        substituteSeedVars [] pkg = [pkg]) := by
  refine ⟨?_, ?_, ?_⟩
  · intro sv pkg hdef
    unfold substituteSeedVars tokenNames at *
    show ((List.map strMk (splitSubst pkg.data)).foldl (substPiece sv)
        [[]]).map strJoin = _
    rw [foldl_substPiece_combos sv _ [[]] hdef]
    rw [List.map_flatMap]
    simp only [List.map_cons, List.map_nil, List.nil_append]
    rw [flatMap_single]
  · intro sv pkg hdef
    unfold substituteSeedVars tokenNames at *
    rw [List.length_map, foldl_substPiece_length]
    simp only [List.length_cons, List.length_nil, Nat.zero_add, Nat.one_mul]
    exact prod_factors_of_defined sv _ hdef
  · intro pkg hno
    unfold hasTok at hno
    unfold substituteSeedVars splitSubst
    rw [splitScan_of_no_tok pkg.data [] hno]
    simp only [List.reverse_nil, List.nil_append, List.map_cons,
      List.map_nil, List.foldl_cons, List.foldl_nil]
    rw [show substPiece [] [[]] (strMk pkg.data) = [[strMk pkg.data]] by
      unfold substPiece
      rw [pieceTokenName_of_no_tok hno]
      rfl]
    simp only [List.map_cons, List.map_nil]
    show [strJoin [strMk pkg.data]] = [pkg]
    simp [strJoin, strMk]

theorem c9_substitution_cartesian_witness :
    substituteSeedVars [("kernel-version", ["5.4", "5.15"])]
        "linux-image-${Kernel-Version}" =
      ["linux-image-5.4", "linux-image-5.15"] ∧
    substituteSeedVars [("a", ["1", "2"]), ("b", ["x", "y"])] "p${a}-${b}" =
      ["p1-x", "p2-x", "p1-y", "p2-y"] ∧
    substituteSeedVars [] "hello" = ["hello"] := by
  refine ⟨?_, ?_, c9_substitution_cartesian.2.2 "hello" (by decide)⟩
  · rw [c9_substitution_cartesian.1 [("kernel-version", ["5.4", "5.15"])]
      "linux-image-${Kernel-Version}" (by decide)]
    decide
  · rw [c9_substitution_cartesian.1 [("a", ["1", "2"]), ("b", ["x", "y"])]
      "p${a}-${b}" (by decide)]
    decide

/-! ### Undefined substitution variables are dropped -/

theorem foldr_data_append (ps : List String) (X : List Char) :
    ps.foldr (fun s acc => s.data ++ acc) X =
      ps.foldr (fun s acc => s.data ++ acc) [] ++ X := by
  induction ps with
  | nil => simp
  | cons p ps ih => simp [ih]

theorem strJoin_append_single (ps : List String) (v : String) :
    strJoin (ps ++ [v]) = strMk ((strJoin ps).data ++ v.data) := by
  simp only [strJoin, strMk, List.foldr_append, List.foldr_cons,
    List.foldr_nil, List.append_nil]
  rw [foldr_data_append]

theorem map_strJoin_append_piece (S : List (List String)) (p : String) :
    (S.map (fun ps => ps ++ [p])).map strJoin =
      (S.map strJoin).map (fun s => strMk (s.data ++ p.data)) := by
  simp only [List.map_map]
  apply List.map_congr_left
  intro ps _
  exact strJoin_append_single ps p

theorem foldl_values_join (S A : List (List String)) (vs : List String) :
    ((vs.foldl
        (fun ns v => ns ++ S.map (fun ps => ps ++ [v])) A).map strJoin) =
      vs.foldl
        (fun ns v =>
          ns ++ (S.map strJoin).map (fun s => strMk (s.data ++ v.data)))
        (A.map strJoin) := by
  induction vs generalizing A with
  | nil => simp
  | cons v vs ih =>
      simp only [List.foldl_cons, ih, List.map_append,
        map_strJoin_append_piece]

theorem substPiece_join_congr (sv : List (String × List String))
    (nm : String) (hnone : aget sv nm = none)
    (S1 S2 : List (List String)) (hS : S1.map strJoin = S2.map strJoin)
    (p : String) :
    (substPiece sv S1 p).map strJoin =
      (substPiece ((nm, [""]) :: sv) S2 p).map strJoin := by
  unfold substPiece
  cases htok : pieceTokenName p with
  | none =>
      simp only [map_strJoin_append_piece, hS]
  | some w =>
      dsimp only
      by_cases hw : w = nm
      · subst hw
        rw [hnone]
        rw [show aget ((w, [""]) :: sv) w = some [""] by simp [aget]]
        simp only [List.foldl_cons, List.foldl_nil, List.nil_append]
        rw [map_strJoin_append_piece]
        rw [← hS]
        have hid : ∀ s : String, strMk (s.data ++ ("" : String).data) = s := by
          intro s; cases s; simp [strMk]
        simp [hid]
        exact fun a _ => rfl
      · rw [show aget ((nm, [""]) :: sv) w = aget sv w by
          simp [aget]
          intro h
          exact absurd h.symm hw]
        cases hv : aget sv w with
        | none => simpa using hS
        | some vs =>
            rw [foldl_values_join, foldl_values_join]
            simp [hS]

theorem foldl_subst_join_congr (sv : List (String × List String))
    (nm : String) (hnone : aget sv nm = none) (pieces : List String) :
    ∀ (S1 S2 : List (List String)), S1.map strJoin = S2.map strJoin →
    ((pieces.foldl (substPiece sv) S1).map strJoin) =
      ((pieces.foldl (substPiece ((nm, [""]) :: sv)) S2).map strJoin) := by
  induction pieces with
  | nil => intro S1 S2 hS; simpa using hS
  | cons p ps ih =>
      intro S1 S2 hS
      simp only [List.foldl_cons]
      exact ih _ _ (substPiece_join_congr sv nm hnone S1 S2 hS p)

/-- C10: a `${var}` token whose lower-cased name is undefined is
replaced by the empty string in every produced entry — expansion with
the variable undefined equals expansion with it bound to `[""]`; in
particular `foo-${undef}` under an empty table expands to `["foo-"]`. -/
theorem c10_undefined_substvar :
    (∀ (sv : List (String × List String)) (pkg : String) (nm : String),
        aget sv nm = none →
        substituteSeedVars sv pkg =
          substituteSeedVars ((nm, [""]) :: sv) pkg) ∧
    substituteSeedVars [] "foo-${undef}" = ["foo-"] := by
  constructor
  · intro sv pkg nm hnone
    unfold substituteSeedVars
    exact foldl_subst_join_congr sv nm hnone _ [[]] [[]] rfl
  · decide

theorem c10_undefined_substvar_witness :
    substituteSeedVars [] "foo-${undef}" =
      substituteSeedVars [("undef", [""])] "foo-${undef}" :=
  c10_undefined_substvar.1 [] "foo-${undef}" "undef" rfl

/-! ## Data model

The records mirror the dictionaries built by `Germinator.__init__` and
`GerminatedSeed.__init__`.  Dependency fields arrive already parsed
(the dependency parser, `apt_pkg.parse_depends`, is an external
collaborator per the spec); `Provides` arrives as the list of provided
names (`prov[0][0]` is the only part the engine reads).  Fields used
only by the output writers (Maintainer, sizes, Essential, Suggests)
are not modelled. -/

/-- A parsed dependency atom `(name, version, operator)`. -/
structure Atom : Type where
  name : String
  ver : String
  op : String
deriving DecidableEq, Repr

/-- Conjunction of alternative-groups. -/
abbrev DepList := List (List Atom)

/-- A section of a `Packages` / installer `Packages` index file, with
the fields the engine reads.  `none` means the field is absent. -/
structure BinSection : Type where
  package : String
  version : String
  sectionField : Option String := none
  source : Option String := none
  provides : List String := []
  preDepends : DepList := []
  depends : DepList := []
  recommends : DepList := []
  kernelVersion : Option String := none
deriving DecidableEq, Repr

/-- A section of a `Sources` index file. -/
structure SrcSection : Type where
  package : String
  version : String
  buildDepends : DepList := []
  buildDependsIndep : DepList := []
  binaries : Option (List String) := none
deriving DecidableEq, Repr

/-- The stored record of a binary package (`Germinator._packages[pkg]`). -/
structure PkgRec : Type where
  sectionField : String
  version : String
  source : String
  provides : List String
  preDepends : DepList
  depends : DepList
  recommends : DepList
  kernelVersion : String
deriving DecidableEq, Repr

/-- The stored record of a source package (`Germinator._sources[src]`). -/
structure SrcRec : Type where
  version : String
  buildDepends : DepList
  buildDependsIndep : DepList
  binaries : List String
deriving DecidableEq, Repr

inductive LogLevel : Type
  | debug | info | progress | warning | error
deriving DecidableEq, Repr

/-- A germinated seed (`GerminatedSeed`), minus its structure back
reference: the embedding models one germination run over one seed
structure, which is passed to every operation, so the Python
`_structure` field and the cross-structure `copy` sharing collapse. -/
structure GSeed : Type where
  name : String
  entries : List String := []
  features : List String := []
  recommendsEntries : List String := []
  closeSeeds : List String := []
  depends : List String := []
  buildDepends : List String := []
  sourcepkgs : List String := []
  buildSourcepkgs : List String := []
  build : List String := []
  notBuild : List String := []
  buildSrcs : List String := []
  notBuildSrcs : List String := []
  reasons : List (String × (String × Bool × Bool)) := []
  blacklist : List String := []
  blacklistSeen : Bool := false
  diKernelVersions : List String := []
  includes : List (String × List String) := []
  excludes : List (String × List String) := []
  grown : Bool := false
deriving DecidableEq, Repr

/-- `GerminatedSeedStructure`: the per-structure germination output. -/
structure GOutput : Type where
  seednames : List String := []
  pkgprovides : List (String × List String) := []
  all : List String := []
  allSrcs : List String := []
  allReasons : List (String × (String × Bool × Bool)) := []
  blacklist : List (String × String) := []
  blacklisted : List String := []
deriving DecidableEq, Repr

/-- A seed structure (`SeedStructure`) after inheritance expansion:
ordered names, the expanded inheritance map, feature flags and branch.
Modelled from the spec: the `supported` attribute (the last seed in the
merged order, §4.5) is referenced by `germinator.py` but its assignment
is not part of the sources under review, so it is carried as a field
set by the structure's constructor. -/
structure SeedStruct : Type where
  branch : Option String
  names : List String
  inherit : List (String × List String)
  features : List String := []
  supported : String
deriving DecidableEq, Repr

/-- `SeedStructure.inner_seeds`: this seed and the seeds it inherits. -/
def SeedStruct.innerSeeds (s : SeedStruct) (seedname : String) :
    List String :=
  ((aget s.inherit seedname).getD []) ++ [seedname]

/-- `SeedStructure.strictly_outer_seeds`: seeds that inherit from this
one. -/
def SeedStruct.strictlyOuterSeeds (s : SeedStruct) (seedname : String) :
    List String :=
  s.names.filter (fun m => seedname ∈ (aget s.inherit m).getD [])

/-- `SeedStructure.outer_seeds`. -/
def SeedStruct.outerSeeds (s : SeedStruct) (seedname : String) :
    List String :=
  seedname :: s.strictlyOuterSeeds seedname

/-- `SeedStructure.add_extra`: the synthetic `extra` seed inherits the
name list as it stands after appending `extra` itself (the source
appends before copying). -/
def SeedStruct.addExtra (s : SeedStruct) : SeedStruct :=
  if "extra" ∈ s.names then s
  else
    let names := s.names ++ ["extra"]
    { s with names := names, inherit := aset s.inherit "extra" names }

def limitFoldNames (inh : List (String × List String)) :
    List String → List String → List String
  | [], acc => acc
  | n :: rest, acc =>
      let acc := ((aget inh n).getD []).foldl
        (fun a i => if i ∈ a then a else a ++ [i]) acc
      let acc := if n ∈ acc then acc else acc ++ [n]
      limitFoldNames inh rest acc

/-- `SeedStructure.limit`: restrict to the given seeds plus ancestors. -/
def SeedStruct.limit (s : SeedStruct) (seeds : List String) : SeedStruct :=
  { s with names := limitFoldNames s.inherit seeds [] }

/-- The whole germinator state (`Germinator.__init__`), with outputs
keyed by structure branch as in `GerminatorOutput`, plus the log. -/
structure GermState : Type where
  arch : String
  hints : List (String × String) := []
  packages : List (String × PkgRec) := []
  packagetype : List (String × String) := []
  provides : List (String × List String) := []
  sources : List (String × SrcRec) := []
  seeds : List (String × GSeed) := []
  outputs : List (Option String × GOutput) := []
  log : List (LogLevel × String) := []
deriving DecidableEq, Repr

def initState (arch : String) : GermState := { arch := arch }

def logMsg (st : GermState) (lvl : LogLevel) (msg : String) : GermState :=
  { st with log := st.log ++ [(lvl, msg)] }

/-! ## Archive ingestion (`Germinator._parse_package`, `_parse_source`,
`parse_archive`) -/

/-- Strip a trailing `(version)` from a `Source` field. -/
def stripSourceVersion (src : String) : String :=
  match chFind src.data '(' with
  | some i => pyStrip (strMk (src.data.take i))
  | none => src

/-- `section.get("Section", "").split('/')[-1]`. -/
def lastSlashComponent (s : String) : String :=
  strMk ((s.data.reverse.takeWhile (fun c => c ≠ '/')).reverse)

/-- First half of the provides-index loop body of `_parse_package`:
create the provides entry if missing, seeding it with the provided name
itself when that name is already a real package. -/
def updProvInit (packages : List (String × PkgRec))
    (provMap : List (String × List String)) (prov : String) :
    List (String × List String) :=
  if amem provMap prov then provMap
  else aset provMap prov (if amem packages prov then [prov] else [])

/-- Full provides-index loop body: create if missing, then append the
providing package. -/
def updProvStep (packages : List (String × PkgRec)) (pkg : String)
    (provMap : List (String × List String)) (prov : String) :
    List (String × List String) :=
  aset (updProvInit packages provMap prov) prov
    (((aget (updProvInit packages provMap prov) prov).getD []) ++ [pkg])

/-- The provides-index loop of `_parse_package`.  The loop reads but
never writes the packages table, which is therefore a fixed
parameter. -/
def updateProvidesIndex (packages : List (String × PkgRec)) (pkg : String) :
    List (String × List String) → List String → List (String × List String)
  | provMap, [] => provMap
  | provMap, prov :: rest =>
      updateProvidesIndex packages pkg
        (updProvStep packages pkg provMap prov) rest

/-- The final self-append of `_parse_package`: if the package name has
a provides entry, append the package to it. -/
def selfProvAppend (provMap : List (String × List String)) (pkg : String) :
    List (String × List String) :=
  if amem provMap pkg then
    aset provMap pkg (((aget provMap pkg).getD []) ++ [pkg])
  else provMap

/-- The storing tail of `_parse_package`, run when the section is newer
than any stored record. -/
def parsePackageStore (st : GermState) (s : BinSection) (pkgtype : String) :
    GermState :=
  let pkg := s.package
  let rec0 : PkgRec :=
    { sectionField := lastSlashComponent (s.sectionField.getD "")
      version := s.version
      source := stripSourceVersion (s.source.getD pkg)
      provides := s.provides
      preDepends := s.preDepends
      depends := s.depends
      recommends := s.recommends
      kernelVersion := s.kernelVersion.getD "" }
  let packages' := aset st.packages pkg rec0
  { st with
      packages := packages'
      packagetype := aset st.packagetype pkg pkgtype
      provides := selfProvAppend
        (updateProvidesIndex packages' pkg st.provides s.provides) pkg }

/-- `Germinator._parse_package`: newer-wins ingestion of a binary
section.  `vc` is the external apt version comparator (spec §4.1). -/
def parsePackage (vc : String → String → Int) (st : GermState)
    (s : BinSection) (pkgtype : String) : GermState :=
  match aget st.packages s.package with
  | some last =>
      if 0 ≤ vc last.version s.version then st
      else parsePackageStore st s pkgtype
  | none => parsePackageStore st s pkgtype

def parseSourceStore (st : GermState) (s : SrcSection) : GermState :=
  let rec0 : SrcRec :=
    { version := s.version
      buildDepends := s.buildDepends
      buildDependsIndep := s.buildDependsIndep
      binaries := s.binaries.getD [s.package] }
  { st with sources := aset st.sources s.package rec0 }

/-- `Germinator._parse_source`: newer-wins ingestion of a source
section. -/
def parseSource (vc : String → String → Int) (st : GermState)
    (s : SrcSection) : GermState :=
  match aget st.sources s.package with
  | some last =>
      if 0 ≤ vc last.version s.version then st
      else parseSourceStore st s
  | none => parseSourceStore st s

/-- One item of an archive index stream, tagged with its index type. -/
inductive ArchiveItem : Type
  | packages (s : BinSection)
  | sources (s : SrcSection)
  | installerPackages (s : BinSection)
deriving DecidableEq, Repr

/-- `Germinator.parse_archive`. -/
def parseArchive (vc : String → String → Int) (st : GermState) :
    List ArchiveItem → GermState
  | [] => st
  | .packages s :: rest => parseArchive vc (parsePackage vc st s "deb") rest
  | .sources s :: rest => parseArchive vc (parseSource vc st s) rest
  | .installerPackages s :: rest =>
      parseArchive vc (parsePackage vc st s "udeb") rest

/-! ## C4: newer-wins ingestion -/

/-- Versions of the binary sections carrying a given package name. -/
def binVersionsNamed (n : String) : List ArchiveItem → List String
  | [] => []
  | .packages s :: rest =>
      if s.package = n then s.version :: binVersionsNamed n rest
      else binVersionsNamed n rest
  | .sources _ :: rest => binVersionsNamed n rest
  | .installerPackages s :: rest =>
      if s.package = n then s.version :: binVersionsNamed n rest
      else binVersionsNamed n rest

/-- Versions of the source sections carrying a given package name. -/
def srcVersionsNamed (n : String) : List ArchiveItem → List String
  | [] => []
  | .sources s :: rest =>
      if s.package = n then s.version :: srcVersionsNamed n rest
      else srcVersionsNamed n rest
  | .packages _ :: rest => srcVersionsNamed n rest
  | .installerPackages _ :: rest => srcVersionsNamed n rest

theorem parseSource_packages (vc : String → String → Int) (st : GermState)
    (s : SrcSection) : (parseSource vc st s).packages = st.packages := by
  unfold parseSource parseSourceStore
  split
  · split <;> rfl
  · rfl

theorem parseSource_provides (vc : String → String → Int) (st : GermState)
    (s : SrcSection) : (parseSource vc st s).provides = st.provides := by
  unfold parseSource parseSourceStore
  split
  · split <;> rfl
  · rfl

theorem parsePackage_sources (vc : String → String → Int) (st : GermState)
    (s : BinSection) (t : String) :
    (parsePackage vc st s t).sources = st.sources := by
  unfold parsePackage parsePackageStore
  split
  · split <;> rfl
  · rfl

theorem parsePackage_packages_ne (vc : String → String → Int)
    (st : GermState) (s : BinSection) (t : String) (n : String)
    (h : s.package ≠ n) :
    aget (parsePackage vc st s t).packages n = aget st.packages n := by
  unfold parsePackage parsePackageStore
  split
  · split
    · rfl
    · simp only
      exact aget_aset_ne st.packages s.package n _ h
  · simp only
    exact aget_aset_ne st.packages s.package n _ h

theorem parseSource_sources_ne (vc : String → String → Int)
    (st : GermState) (s : SrcSection) (n : String) (h : s.package ≠ n) :
    aget (parseSource vc st s).sources n = aget st.sources n := by
  unfold parseSource parseSourceStore
  split
  · split
    · rfl
    · simp only
      exact aget_aset_ne st.sources s.package n _ h
  · simp only
    exact aget_aset_ne st.sources s.package n _ h

theorem parsePackage_mono (vc : String → String → Int)
    (hrefl : ∀ a, 0 ≤ vc a a) (h2 : ∀ a b, vc a b < 0 → 0 ≤ vc b a)
    (n : String) (st : GermState) (s : BinSection) (t : String)
    (r0 : PkgRec) (h : aget st.packages n = some r0) :
    ∃ r1, aget (parsePackage vc st s t).packages n = some r1 ∧
      0 ≤ vc r1.version r0.version := by
  by_cases hn : s.package = n
  · subst hn
    unfold parsePackage
    rw [h]
    dsimp only
    by_cases hle : 0 ≤ vc r0.version s.version
    · rw [if_pos hle]
      exact ⟨r0, h, hrefl _⟩
    · rw [if_neg hle]
      exact ⟨_, aget_aset_self st.packages s.package _,
        h2 r0.version s.version (by omega)⟩
  · rw [parsePackage_packages_ne vc st s t n hn]
    exact ⟨r0, h, hrefl _⟩

theorem parseSource_mono (vc : String → String → Int)
    (hrefl : ∀ a, 0 ≤ vc a a) (h2 : ∀ a b, vc a b < 0 → 0 ≤ vc b a)
    (n : String) (st : GermState) (s : SrcSection)
    (r0 : SrcRec) (h : aget st.sources n = some r0) :
    ∃ r1, aget (parseSource vc st s).sources n = some r1 ∧
      0 ≤ vc r1.version r0.version := by
  by_cases hn : s.package = n
  · subst hn
    unfold parseSource
    rw [h]
    dsimp only
    by_cases hle : 0 ≤ vc r0.version s.version
    · rw [if_pos hle]
      exact ⟨r0, h, hrefl _⟩
    · rw [if_neg hle]
      exact ⟨_, aget_aset_self st.sources s.package _,
        h2 r0.version s.version (by omega)⟩
  · rw [parseSource_sources_ne vc st s n hn]
    exact ⟨r0, h, hrefl _⟩

theorem parseArchive_pkg_mono (vc : String → String → Int)
    (h1 : ∀ a b c, 0 ≤ vc a b → 0 ≤ vc b c → 0 ≤ vc a c)
    (hrefl : ∀ a, 0 ≤ vc a a) (h2 : ∀ a b, vc a b < 0 → 0 ≤ vc b a)
    (n : String) :
    ∀ (items : List ArchiveItem) (st : GermState) (r0 : PkgRec),
    aget st.packages n = some r0 →
    ∃ r1, aget (parseArchive vc st items).packages n = some r1 ∧
      0 ≤ vc r1.version r0.version := by
  intro items
  induction items with
  | nil => intro st r0 h; exact ⟨r0, h, hrefl _⟩
  | cons item rest ih =>
      intro st r0 h
      cases item with
      | packages s =>
          obtain ⟨rm, hrm, hv⟩ := parsePackage_mono vc hrefl h2 n st s "deb" r0 h
          obtain ⟨r1, hr1, hv1⟩ := ih _ rm hrm
          exact ⟨r1, hr1, h1 _ _ _ hv1 hv⟩
      | installerPackages s =>
          obtain ⟨rm, hrm, hv⟩ :=
            parsePackage_mono vc hrefl h2 n st s "udeb" r0 h
          obtain ⟨r1, hr1, hv1⟩ := ih _ rm hrm
          exact ⟨r1, hr1, h1 _ _ _ hv1 hv⟩
      | sources s =>
          have h' : aget (parseSource vc st s).packages n = some r0 := by
            rw [parseSource_packages]; exact h
          exact ih _ r0 h'

theorem parseArchive_src_mono (vc : String → String → Int)
    (h1 : ∀ a b c, 0 ≤ vc a b → 0 ≤ vc b c → 0 ≤ vc a c)
    (hrefl : ∀ a, 0 ≤ vc a a) (h2 : ∀ a b, vc a b < 0 → 0 ≤ vc b a)
    (n : String) :
    ∀ (items : List ArchiveItem) (st : GermState) (r0 : SrcRec),
    aget st.sources n = some r0 →
    ∃ r1, aget (parseArchive vc st items).sources n = some r1 ∧
      0 ≤ vc r1.version r0.version := by
  intro items
  induction items with
  | nil => intro st r0 h; exact ⟨r0, h, hrefl _⟩
  | cons item rest ih =>
      intro st r0 h
      cases item with
      | sources s =>
          obtain ⟨rm, hrm, hv⟩ := parseSource_mono vc hrefl h2 n st s r0 h
          obtain ⟨r1, hr1, hv1⟩ := ih _ rm hrm
          exact ⟨r1, hr1, h1 _ _ _ hv1 hv⟩
      | packages s =>
          have h' : aget (parsePackage vc st s "deb").sources n = some r0 := by
            rw [parsePackage_sources]; exact h
          exact ih _ r0 h'
      | installerPackages s =>
          have h' : aget (parsePackage vc st s "udeb").sources n = some r0 := by
            rw [parsePackage_sources]; exact h
          exact ih _ r0 h'

theorem pkg_sound_store (vc : String → String → Int)
    (h1 : ∀ a b c, 0 ≤ vc a b → 0 ≤ vc b c → 0 ≤ vc a c)
    (hrefl : ∀ a, 0 ≤ vc a a) (h2 : ∀ a b, vc a b < 0 → 0 ≤ vc b a)
    (s : BinSection) (t : String)
    (rest : List ArchiveItem) (st : GermState) (r' : PkgRec)
    (ih : ∀ (st : GermState) (r' : PkgRec),
        aget (parseArchive vc st rest).packages s.package = some r' →
        (∀ v ∈ binVersionsNamed s.package rest, 0 ≤ vc r'.version v) ∧
        (r'.version ∈ binVersionsNamed s.package rest ∨
          aget st.packages s.package = some r'))
    (h : aget (parseArchive vc (parsePackageStore st s t) rest).packages
        s.package = some r') :
    (∀ v ∈ s.version :: binVersionsNamed s.package rest,
        0 ≤ vc r'.version v) ∧
    r'.version ∈ s.version :: binVersionsNamed s.package rest := by
  have hnew : aget (parsePackageStore st s t).packages s.package = some
      { sectionField := lastSlashComponent (s.sectionField.getD "")
        version := s.version
        source := stripSourceVersion (s.source.getD s.package)
        provides := s.provides
        preDepends := s.preDepends
        depends := s.depends
        recommends := s.recommends
        kernelVersion := s.kernelVersion.getD "" } :=
    aget_aset_self st.packages s.package _
  obtain ⟨hall, hdisj⟩ := ih _ r' h
  obtain ⟨r1, hr1, hv1⟩ :=
    parseArchive_pkg_mono vc h1 hrefl h2 s.package rest _ _ hnew
  have hr1' : r1 = r' := Option.some.inj (hr1.symm.trans h)
  subst hr1'
  constructor
  · intro v hv
    rcases List.mem_cons.mp hv with rfl | hv'
    · exact hv1
    · exact hall v hv'
  · rcases hdisj with hm | hk
    · exact List.mem_cons_of_mem _ hm
    · rw [hnew] at hk
      have hr' := Option.some.inj hk
      rw [← hr']
      exact List.mem_cons_self _ _

theorem pkg_sound_step (vc : String → String → Int)
    (h1 : ∀ a b c, 0 ≤ vc a b → 0 ≤ vc b c → 0 ≤ vc a c)
    (hrefl : ∀ a, 0 ≤ vc a a) (h2 : ∀ a b, vc a b < 0 → 0 ≤ vc b a)
    (n : String) (s : BinSection) (t : String)
    (rest : List ArchiveItem) (st : GermState) (r' : PkgRec)
    (ih : ∀ (st : GermState) (r' : PkgRec),
        aget (parseArchive vc st rest).packages n = some r' →
        (∀ v ∈ binVersionsNamed n rest, 0 ≤ vc r'.version v) ∧
        (r'.version ∈ binVersionsNamed n rest ∨ aget st.packages n = some r'))
    (h : aget (parseArchive vc (parsePackage vc st s t) rest).packages n =
        some r') :
    (∀ v ∈ (if s.package = n then s.version :: binVersionsNamed n rest
            else binVersionsNamed n rest), 0 ≤ vc r'.version v) ∧
    (r'.version ∈ (if s.package = n then s.version :: binVersionsNamed n rest
                   else binVersionsNamed n rest) ∨
      aget st.packages n = some r') := by
  by_cases hn : s.package = n
  · subst hn
    rw [if_pos rfl]
    cases h0 : aget st.packages s.package with
    | some r0 =>
        by_cases hle : 0 ≤ vc r0.version s.version
        · have hskip : parsePackage vc st s t = st := by
            unfold parsePackage; rw [h0]; dsimp only; rw [if_pos hle]
          rw [hskip] at h
          obtain ⟨hall, hdisj⟩ := ih _ r' h
          obtain ⟨r1, hr1, hv1⟩ :=
            parseArchive_pkg_mono vc h1 hrefl h2 s.package rest st r0 h0
          have hr1' : r1 = r' := Option.some.inj (hr1.symm.trans h)
          subst hr1'
          constructor
          · intro v hv
            rcases List.mem_cons.mp hv with rfl | hv'
            · exact h1 _ _ _ hv1 hle
            · exact hall v hv'
          · rcases hdisj with hm | hk
            · exact Or.inl (List.mem_cons_of_mem _ hm)
            · rw [h0] at hk
              exact Or.inr hk
        · have hstore : parsePackage vc st s t = parsePackageStore st s t := by
            unfold parsePackage; rw [h0]; dsimp only; rw [if_neg hle]
          rw [hstore] at h
          obtain ⟨hall, hmem⟩ :=
            pkg_sound_store vc h1 hrefl h2 s t rest st r' ih h
          exact ⟨hall, Or.inl hmem⟩
    | none =>
        have hstore : parsePackage vc st s t = parsePackageStore st s t := by
          unfold parsePackage; rw [h0]
        rw [hstore] at h
        obtain ⟨hall, hmem⟩ :=
          pkg_sound_store vc h1 hrefl h2 s t rest st r' ih h
        exact ⟨hall, Or.inl hmem⟩
  · rw [if_neg hn]
    obtain ⟨hall, hdisj⟩ := ih _ r' h
    refine ⟨hall, hdisj.imp id (fun hk => ?_)⟩
    rwa [parsePackage_packages_ne vc st s t n hn] at hk

theorem parseArchive_pkg_sound (vc : String → String → Int)
    (h1 : ∀ a b c, 0 ≤ vc a b → 0 ≤ vc b c → 0 ≤ vc a c)
    (hrefl : ∀ a, 0 ≤ vc a a) (h2 : ∀ a b, vc a b < 0 → 0 ≤ vc b a)
    (n : String) :
    ∀ (items : List ArchiveItem) (st : GermState) (r' : PkgRec),
    aget (parseArchive vc st items).packages n = some r' →
    (∀ v ∈ binVersionsNamed n items, 0 ≤ vc r'.version v) ∧
    (r'.version ∈ binVersionsNamed n items ∨ aget st.packages n = some r') := by
  intro items
  induction items with
  | nil =>
      intro st r' h
      exact ⟨by simp [binVersionsNamed], Or.inr h⟩
  | cons item rest ih =>
      intro st r' h
      cases item with
      | sources s =>
          simp only [parseArchive] at h
          obtain ⟨hall, hdisj⟩ := ih _ r' h
          refine ⟨hall, hdisj.imp id (fun hk => ?_)⟩
          rwa [parseSource_packages] at hk
      | packages s =>
          simp only [parseArchive] at h
          exact pkg_sound_step vc h1 hrefl h2 n s "deb" rest st r' ih h
      | installerPackages s =>
          simp only [parseArchive] at h
          exact pkg_sound_step vc h1 hrefl h2 n s "udeb" rest st r' ih h

theorem src_sound_store (vc : String → String → Int)
    (h1 : ∀ a b c, 0 ≤ vc a b → 0 ≤ vc b c → 0 ≤ vc a c)
    (hrefl : ∀ a, 0 ≤ vc a a) (h2 : ∀ a b, vc a b < 0 → 0 ≤ vc b a)
    (s : SrcSection)
    (rest : List ArchiveItem) (st : GermState) (r' : SrcRec)
    (ih : ∀ (st : GermState) (r' : SrcRec),
        aget (parseArchive vc st rest).sources s.package = some r' →
        (∀ v ∈ srcVersionsNamed s.package rest, 0 ≤ vc r'.version v) ∧
        (r'.version ∈ srcVersionsNamed s.package rest ∨
          aget st.sources s.package = some r'))
    (h : aget (parseArchive vc (parseSourceStore st s) rest).sources
        s.package = some r') :
    (∀ v ∈ s.version :: srcVersionsNamed s.package rest,
        0 ≤ vc r'.version v) ∧
    r'.version ∈ s.version :: srcVersionsNamed s.package rest := by
  have hnew : aget (parseSourceStore st s).sources s.package = some
      { version := s.version
        buildDepends := s.buildDepends
        buildDependsIndep := s.buildDependsIndep
        binaries := s.binaries.getD [s.package] } :=
    aget_aset_self st.sources s.package _
  obtain ⟨hall, hdisj⟩ := ih _ r' h
  obtain ⟨r1, hr1, hv1⟩ :=
    parseArchive_src_mono vc h1 hrefl h2 s.package rest _ _ hnew
  have hr1' : r1 = r' := Option.some.inj (hr1.symm.trans h)
  subst hr1'
  constructor
  · intro v hv
    rcases List.mem_cons.mp hv with rfl | hv'
    · exact hv1
    · exact hall v hv'
  · rcases hdisj with hm | hk
    · exact List.mem_cons_of_mem _ hm
    · rw [hnew] at hk
      have hr' := Option.some.inj hk
      rw [← hr']
      exact List.mem_cons_self _ _

theorem src_sound_step (vc : String → String → Int)
    (h1 : ∀ a b c, 0 ≤ vc a b → 0 ≤ vc b c → 0 ≤ vc a c)
    (hrefl : ∀ a, 0 ≤ vc a a) (h2 : ∀ a b, vc a b < 0 → 0 ≤ vc b a)
    (n : String) (s : SrcSection)
    (rest : List ArchiveItem) (st : GermState) (r' : SrcRec)
    (ih : ∀ (st : GermState) (r' : SrcRec),
        aget (parseArchive vc st rest).sources n = some r' →
        (∀ v ∈ srcVersionsNamed n rest, 0 ≤ vc r'.version v) ∧
        (r'.version ∈ srcVersionsNamed n rest ∨ aget st.sources n = some r'))
    (h : aget (parseArchive vc (parseSource vc st s) rest).sources n =
        some r') :
    (∀ v ∈ (if s.package = n then s.version :: srcVersionsNamed n rest
            else srcVersionsNamed n rest), 0 ≤ vc r'.version v) ∧
    (r'.version ∈ (if s.package = n then s.version :: srcVersionsNamed n rest
                   else srcVersionsNamed n rest) ∨
      aget st.sources n = some r') := by
  by_cases hn : s.package = n
  · subst hn
    rw [if_pos rfl]
    cases h0 : aget st.sources s.package with
    | some r0 =>
        by_cases hle : 0 ≤ vc r0.version s.version
        · have hskip : parseSource vc st s = st := by
            unfold parseSource; rw [h0]; dsimp only; rw [if_pos hle]
          rw [hskip] at h
          obtain ⟨hall, hdisj⟩ := ih _ r' h
          obtain ⟨r1, hr1, hv1⟩ :=
            parseArchive_src_mono vc h1 hrefl h2 s.package rest st r0 h0
          have hr1' : r1 = r' := Option.some.inj (hr1.symm.trans h)
          subst hr1'
          constructor
          · intro v hv
            rcases List.mem_cons.mp hv with rfl | hv'
            · exact h1 _ _ _ hv1 hle
            · exact hall v hv'
          · rcases hdisj with hm | hk
            · exact Or.inl (List.mem_cons_of_mem _ hm)
            · rw [h0] at hk
              exact Or.inr hk
        · have hstore : parseSource vc st s = parseSourceStore st s := by
            unfold parseSource; rw [h0]; dsimp only; rw [if_neg hle]
          rw [hstore] at h
          obtain ⟨hall, hmem⟩ := src_sound_store vc h1 hrefl h2 s rest st r' ih h
          exact ⟨hall, Or.inl hmem⟩
    | none =>
        have hstore : parseSource vc st s = parseSourceStore st s := by
          unfold parseSource; rw [h0]
        rw [hstore] at h
        obtain ⟨hall, hmem⟩ := src_sound_store vc h1 hrefl h2 s rest st r' ih h
        exact ⟨hall, Or.inl hmem⟩
  · rw [if_neg hn]
    obtain ⟨hall, hdisj⟩ := ih _ r' h
    refine ⟨hall, hdisj.imp id (fun hk => ?_)⟩
    rwa [parseSource_sources_ne vc st s n hn] at hk

theorem parseArchive_src_sound (vc : String → String → Int)
    (h1 : ∀ a b c, 0 ≤ vc a b → 0 ≤ vc b c → 0 ≤ vc a c)
    (hrefl : ∀ a, 0 ≤ vc a a) (h2 : ∀ a b, vc a b < 0 → 0 ≤ vc b a)
    (n : String) :
    ∀ (items : List ArchiveItem) (st : GermState) (r' : SrcRec),
    aget (parseArchive vc st items).sources n = some r' →
    (∀ v ∈ srcVersionsNamed n items, 0 ≤ vc r'.version v) ∧
    (r'.version ∈ srcVersionsNamed n items ∨ aget st.sources n = some r') := by
  intro items
  induction items with
  | nil =>
      intro st r' h
      exact ⟨by simp [srcVersionsNamed], Or.inr h⟩
  | cons item rest ih =>
      intro st r' h
      cases item with
      | sources s =>
          simp only [parseArchive] at h
          exact src_sound_step vc h1 hrefl h2 n s rest st r' ih h
      | packages s =>
          simp only [parseArchive] at h
          obtain ⟨hall, hdisj⟩ := ih _ r' h
          refine ⟨hall, hdisj.imp id (fun hk => ?_)⟩
          rwa [parsePackage_sources] at hk
      | installerPackages s =>
          simp only [parseArchive] at h
          obtain ⟨hall, hdisj⟩ := ih _ r' h
          refine ⟨hall, hdisj.imp id (fun hk => ?_)⟩
          rwa [parsePackage_sources] at hk

theorem parsePackage_isSome (vc : String → String → Int) (st : GermState)
    (s : BinSection) (t : String) :
    (aget (parsePackage vc st s t).packages s.package).isSome := by
  unfold parsePackage
  cases h0 : aget st.packages s.package with
  | some r0 =>
      dsimp only
      split
      · rw [h0]; rfl
      · exact Option.isSome_iff_exists.mpr
          ⟨_, aget_aset_self st.packages s.package _⟩
  | none =>
      exact Option.isSome_iff_exists.mpr
        ⟨_, aget_aset_self st.packages s.package _⟩

theorem parseSource_isSome (vc : String → String → Int) (st : GermState)
    (s : SrcSection) :
    (aget (parseSource vc st s).sources s.package).isSome := by
  unfold parseSource
  cases h0 : aget st.sources s.package with
  | some r0 =>
      dsimp only
      split
      · rw [h0]; rfl
      · exact Option.isSome_iff_exists.mpr
          ⟨_, aget_aset_self st.sources s.package _⟩
  | none =>
      exact Option.isSome_iff_exists.mpr
        ⟨_, aget_aset_self st.sources s.package _⟩

theorem parsePackage_isSome_mono (vc : String → String → Int)
    (st : GermState) (s : BinSection) (t : String) (n : String)
    (h : (aget st.packages n).isSome) :
    (aget (parsePackage vc st s t).packages n).isSome := by
  by_cases hn : s.package = n
  · subst hn; exact parsePackage_isSome vc st s t
  · rwa [parsePackage_packages_ne vc st s t n hn]

theorem parseSource_isSome_mono (vc : String → String → Int)
    (st : GermState) (s : SrcSection) (n : String)
    (h : (aget st.sources n).isSome) :
    (aget (parseSource vc st s).sources n).isSome := by
  by_cases hn : s.package = n
  · subst hn; exact parseSource_isSome vc st s
  · rwa [parseSource_sources_ne vc st s n hn]

theorem parseArchive_pkg_exists (vc : String → String → Int) (n : String) :
    ∀ (items : List ArchiveItem) (st : GermState),
    (binVersionsNamed n items ≠ [] ∨ (aget st.packages n).isSome) →
    (aget (parseArchive vc st items).packages n).isSome := by
  intro items
  induction items with
  | nil =>
      intro st h
      rcases h with h | h
      · simp [binVersionsNamed] at h
      · exact h
  | cons item rest ih =>
      intro st h
      cases item with
      | sources s =>
          simp only [parseArchive]
          apply ih
          rcases h with h | h
          · exact Or.inl (by simpa [binVersionsNamed] using h)
          · exact Or.inr (by rwa [parseSource_packages])
      | packages s =>
          simp only [parseArchive]
          by_cases hn : s.package = n
          · subst hn
            exact ih _ (Or.inr (parsePackage_isSome vc st s "deb"))
          · apply ih
            rcases h with h | h
            · exact Or.inl (by simpa [binVersionsNamed, hn] using h)
            · exact Or.inr (by
                rwa [parsePackage_packages_ne vc st s "deb" n hn])
      | installerPackages s =>
          simp only [parseArchive]
          by_cases hn : s.package = n
          · subst hn
            exact ih _ (Or.inr (parsePackage_isSome vc st s "udeb"))
          · apply ih
            rcases h with h | h
            · exact Or.inl (by simpa [binVersionsNamed, hn] using h)
            · exact Or.inr (by
                rwa [parsePackage_packages_ne vc st s "udeb" n hn])

theorem parseArchive_src_exists (vc : String → String → Int) (n : String) :
    ∀ (items : List ArchiveItem) (st : GermState),
    (srcVersionsNamed n items ≠ [] ∨ (aget st.sources n).isSome) →
    (aget (parseArchive vc st items).sources n).isSome := by
  intro items
  induction items with
  | nil =>
      intro st h
      rcases h with h | h
      · simp [srcVersionsNamed] at h
      · exact h
  | cons item rest ih =>
      intro st h
      cases item with
      | sources s =>
          simp only [parseArchive]
          by_cases hn : s.package = n
          · subst hn
            exact ih _ (Or.inr (parseSource_isSome vc st s))
          · apply ih
            rcases h with h | h
            · exact Or.inl (by simpa [srcVersionsNamed, hn] using h)
            · exact Or.inr (by rwa [parseSource_sources_ne vc st s n hn])
      | packages s =>
          simp only [parseArchive]
          apply ih
          rcases h with h | h
          · exact Or.inl (by simpa [srcVersionsNamed] using h)
          · exact Or.inr (by rwa [parsePackage_sources])
      | installerPackages s =>
          simp only [parseArchive]
          apply ih
          rcases h with h | h
          · exact Or.inl (by simpa [srcVersionsNamed] using h)
          · exact Or.inr (by rwa [parsePackage_sources])

/-- C4: newer-wins ingestion.  For every section sequence and name, the
retained binary (resp. source) record is one of that name's ingested
sections and its version is maximal under the comparator; ingesting a
section whose version is equal to or older than the stored record
leaves the store unchanged.  The version comparator is the external
apt collaborator, assumed to be a total order as spec §4.1 requires. -/
theorem c4_newer_wins (vc : String → String → Int)
    (h1 : ∀ a b c, 0 ≤ vc a b → 0 ≤ vc b c → 0 ≤ vc a c)
    (h2 : ∀ a b, vc a b < 0 → 0 ≤ vc b a) :
    (∀ (arch : String) (items : List ArchiveItem) (n : String),
        binVersionsNamed n items ≠ [] →
        ∃ rec, aget (parseArchive vc (initState arch) items).packages n =
            some rec ∧
          rec.version ∈ binVersionsNamed n items ∧
          ∀ v ∈ binVersionsNamed n items, 0 ≤ vc rec.version v) ∧
    (∀ (arch : String) (items : List ArchiveItem) (n : String),
        srcVersionsNamed n items ≠ [] →
        ∃ rec, aget (parseArchive vc (initState arch) items).sources n =
            some rec ∧
          rec.version ∈ srcVersionsNamed n items ∧
          ∀ v ∈ srcVersionsNamed n items, 0 ≤ vc rec.version v) ∧
    (∀ (st : GermState) (s : BinSection) (t : String) (old : PkgRec),
        aget st.packages s.package = some old →
        0 ≤ vc old.version s.version → parsePackage vc st s t = st) ∧
    (∀ (st : GermState) (s : SrcSection) (old : SrcRec),
        aget st.sources s.package = some old →
        0 ≤ vc old.version s.version → parseSource vc st s = st) := by
  have hrefl : ∀ a, 0 ≤ vc a a := by
    intro a
    by_cases hc : vc a a < 0
    · exact h2 a a hc
    · omega
  refine ⟨?_, ?_, ?_, ?_⟩
  · intro arch items n hne
    have hex := parseArchive_pkg_exists vc n items (initState arch)
      (Or.inl hne)
    obtain ⟨rec, hrec⟩ := Option.isSome_iff_exists.mp hex
    obtain ⟨hall, hdisj⟩ :=
      parseArchive_pkg_sound vc h1 hrefl h2 n items (initState arch) rec hrec
    rcases hdisj with hm | hk
    · exact ⟨rec, hrec, hm, hall⟩
    · exact absurd hk (by simp [initState, aget])
  · intro arch items n hne
    have hex := parseArchive_src_exists vc n items (initState arch)
      (Or.inl hne)
    obtain ⟨rec, hrec⟩ := Option.isSome_iff_exists.mp hex
    obtain ⟨hall, hdisj⟩ :=
      parseArchive_src_sound vc h1 hrefl h2 n items (initState arch) rec hrec
    rcases hdisj with hm | hk
    · exact ⟨rec, hrec, hm, hall⟩
    · exact absurd hk (by simp [initState, aget])
  · intro st s t old h hle
    unfold parsePackage
    rw [h]
    dsimp only
    rw [if_pos hle]
  · intro st s old h hle
    unfold parseSource
    rw [h]
    dsimp only
    rw [if_pos hle]

/-- A concrete total-order comparator (by length, then arbitrary),
standing in for the external apt comparator in witnesses. -/
def vcLen (a b : String) : Int :=
  (a.data.length : Int) - (b.data.length : Int)

theorem vcLen_trans : ∀ a b c, 0 ≤ vcLen a b → 0 ≤ vcLen b c →
    0 ≤ vcLen a c := by
  intro a b c
  unfold vcLen
  omega

theorem vcLen_total : ∀ a b, vcLen a b < 0 → 0 ≤ vcLen b a := by
  intro a b
  unfold vcLen
  omega

theorem c4_newer_wins_witness :
    parsePackage vcLen
      (parseArchive vcLen (initState "i386")
        [ArchiveItem.packages { package := "hello", version := "1.0-10" }])
      { package := "hello", version := "1.0-2" } "deb" =
      parseArchive vcLen (initState "i386")
        [ArchiveItem.packages { package := "hello", version := "1.0-10" }] :=
  (c4_newer_wins vcLen vcLen_trans vcLen_total).2.2.1
    (parseArchive vcLen (initState "i386")
      [ArchiveItem.packages { package := "hello", version := "1.0-10" }])
    { package := "hello", version := "1.0-2" } "deb"
    { sectionField := ""
      version := "1.0-10"
      source := "hello"
      provides := []
      preDepends := []
      depends := []
      recommends := []
      kernelVersion := "" }
    (by decide) (by decide)


/-! ## C6: position of a real package in its own provides list -/

/-- The names provided by an archive item. -/
def providesOf : ArchiveItem → List String
  | .packages s => s.provides
  | .installerPackages s => s.provides
  | .sources _ => []

/-- Is this item a binary section carrying the given package name? -/
def isBinNamedB (n : String) : ArchiveItem → Bool
  | .packages s => s.package == n
  | .installerPackages s => s.package == n
  | .sources _ => false

theorem parseArchive_append (vc : String → String → Int) :
    ∀ (l1 l2 : List ArchiveItem) (st : GermState),
    parseArchive vc st (l1 ++ l2) =
      parseArchive vc (parseArchive vc st l1) l2 := by
  intro l1
  induction l1 with
  | nil => intro l2 st; rfl
  | cons item rest ih =>
      intro l2 st
      cases item <;> (simp only [List.cons_append, parseArchive]; exact ih l2 _)

theorem head?_append_left {α : Type} {l l' : List α} {x : α}
    (h : l.head? = some x) : (l ++ l').head? = some x := by
  cases l with
  | nil => simp at h
  | cons a as => simpa using h

/-- The invariant behind the provides-first property: the name is a
real package and, if its provides entry exists, the entry starts with
the name itself. -/
def ProvHeadInv (n : String) (st : GermState) : Prop :=
  amem st.packages n = true ∧
  (aget st.provides n).all (fun l => l.head? == some n) = true

theorem updProvStep_head_inv (packages : List (String × PkgRec))
    (pkg n prov : String) (provMap : List (String × List String))
    (hpkg : amem packages n = true)
    (h : (aget provMap n).all (fun l => l.head? == some n) = true) :
    (aget (updProvStep packages pkg provMap prov) n).all
      (fun l => l.head? == some n) = true := by
  by_cases hpv : prov = n
  · subst hpv
    unfold updProvStep updProvInit
    by_cases hm : amem provMap prov = true
    · rw [if_pos hm]
      obtain ⟨l0, hl0⟩ := Option.isSome_iff_exists.mp hm
      rw [aget_aset_self, hl0]
      rw [hl0] at h
      simp only [Option.all, Option.getD] at h ⊢
      rw [show (l0 ++ [pkg]).head? = some prov from
        head?_append_left (by simpa using h)]
      simp
    · rw [if_neg hm, if_pos hpkg]
      rw [aget_aset_self, aget_aset_self]
      simp only [Option.all, Option.getD]
      simp
  · unfold updProvStep updProvInit
    by_cases hm : amem provMap prov = true
    · rw [if_pos hm, aget_aset_ne _ _ _ _ hpv]
      exact h
    · rw [if_neg hm, aget_aset_ne _ _ _ _ hpv,
        aget_aset_ne _ _ _ _ hpv]
      exact h

theorem updateProvides_head_inv (packages : List (String × PkgRec))
    (pkg n : String) (hpkg : amem packages n = true) :
    ∀ (provList : List String) (provMap : List (String × List String)),
    (aget provMap n).all (fun l => l.head? == some n) = true →
    (aget (updateProvidesIndex packages pkg provMap provList) n).all
      (fun l => l.head? == some n) = true := by
  intro provList
  induction provList with
  | nil => intro provMap h; exact h
  | cons prov rest ih =>
      intro provMap h
      unfold updateProvidesIndex
      exact ih _ (updProvStep_head_inv packages pkg n prov provMap hpkg h)

theorem selfProvAppend_head_inv (pkg n : String)
    (provMap : List (String × List String))
    (h : (aget provMap n).all (fun l => l.head? == some n) = true) :
    (aget (selfProvAppend provMap pkg) n).all
      (fun l => l.head? == some n) = true := by
  unfold selfProvAppend
  by_cases hm : amem provMap pkg = true
  · rw [if_pos hm]
    by_cases hpv : pkg = n
    · subst hpv
      obtain ⟨l0, hl0⟩ := Option.isSome_iff_exists.mp hm
      rw [aget_aset_self, hl0]
      rw [hl0] at h
      simp only [Option.all, Option.getD] at h ⊢
      rw [show (l0 ++ [pkg]).head? = some pkg from
        head?_append_left (by simpa using h)]
      simp
    · rw [aget_aset_ne _ _ _ _ hpv]
      exact h
  · rw [if_neg hm]
    exact h

theorem parsePackageStore_provHeadInv (st : GermState) (s : BinSection)
    (t : String) (n : String)
    (hp : s.package = n ∨ amem st.packages n = true)
    (hall : (aget st.provides n).all (fun l => l.head? == some n) = true) :
    ProvHeadInv n (parsePackageStore st s t) := by
  have hmem' : amem (aset st.packages s.package
      { sectionField := lastSlashComponent (s.sectionField.getD "")
        version := s.version
        source := stripSourceVersion (s.source.getD s.package)
        provides := s.provides
        preDepends := s.preDepends
        depends := s.depends
        recommends := s.recommends
        kernelVersion := s.kernelVersion.getD "" }) n = true := by
    by_cases hq : s.package = n
    · subst hq
      simp [amem, aget_aset_self]
    · rw [amem, aget_aset_ne _ _ _ _ hq]
      rcases hp with hp | hp
      · exact absurd hp hq
      · exact hp
  constructor
  · exact hmem'
  · show (aget (selfProvAppend (updateProvidesIndex
        (aset st.packages s.package _) s.package st.provides s.provides)
        s.package) n).all (fun l => l.head? == some n) = true
    exact selfProvAppend_head_inv s.package n _
      (updateProvides_head_inv _ s.package n hmem' s.provides
        st.provides hall)

theorem parsePackage_provHeadInv (vc : String → String → Int)
    (st : GermState) (s : BinSection) (t : String) (n : String)
    (h : ProvHeadInv n st) : ProvHeadInv n (parsePackage vc st s t) := by
  unfold parsePackage
  cases h0 : aget st.packages s.package with
  | some r0 =>
      dsimp only
      split
      · exact h
      · exact parsePackageStore_provHeadInv st s t n (Or.inr h.1) h.2
  | none => exact parsePackageStore_provHeadInv st s t n (Or.inr h.1) h.2

theorem parseSource_provHeadInv (vc : String → String → Int)
    (st : GermState) (s : SrcSection) (n : String)
    (h : ProvHeadInv n st) : ProvHeadInv n (parseSource vc st s) := by
  constructor
  · rw [amem, parseSource_packages]
    exact h.1
  · rw [parseSource_provides]
    exact h.2

theorem parseArchive_provHeadInv (vc : String → String → Int) (n : String) :
    ∀ (items : List ArchiveItem) (st : GermState),
    ProvHeadInv n st → ProvHeadInv n (parseArchive vc st items) := by
  intro items
  induction items with
  | nil => intro st h; exact h
  | cons item rest ih =>
      intro st h
      cases item with
      | packages s =>
          exact ih _ (parsePackage_provHeadInv vc st s "deb" n h)
      | installerPackages s =>
          exact ih _ (parsePackage_provHeadInv vc st s "udeb" n h)
      | sources s => exact ih _ (parseSource_provHeadInv vc st s n h)

/-- Before any section names or provides `n`: no package record and no
provides entry for `n`. -/
def PreInvC6 (n : String) (st : GermState) : Prop :=
  aget st.packages n = none ∧ aget st.provides n = none

theorem updateProvides_not_mem (packages : List (String × PkgRec))
    (pkg n : String) :
    ∀ (provList : List String) (provMap : List (String × List String)),
    ¬ n ∈ provList →
    aget (updateProvidesIndex packages pkg provMap provList) n =
      aget provMap n := by
  intro provList
  induction provList with
  | nil => intro provMap _; rfl
  | cons prov rest ih =>
      intro provMap hmem
      have hpv : prov ≠ n := fun hh => hmem (hh ▸ List.mem_cons_self _ _)
      unfold updateProvidesIndex
      rw [ih _ (fun hh => hmem (List.mem_cons_of_mem _ hh))]
      unfold updProvStep updProvInit
      by_cases hm : amem provMap prov = true
      · rw [if_pos hm, aget_aset_ne _ _ _ _ hpv]
      · rw [if_neg hm, aget_aset_ne _ _ _ _ hpv,
          aget_aset_ne _ _ _ _ hpv]

theorem parsePackage_preInvC6 (vc : String → String → Int)
    (st : GermState) (s : BinSection) (t : String) (n : String)
    (hnb : s.package ≠ n) (hnp : ¬ n ∈ s.provides)
    (h : PreInvC6 n st) : PreInvC6 n (parsePackage vc st s t) := by
  have hselfne : ∀ (m : List (String × List String)),
      aget (selfProvAppend m s.package) n = aget m n := by
    intro m
    unfold selfProvAppend
    by_cases hm : amem m s.package = true
    · rw [if_pos hm, aget_aset_ne _ _ _ _ hnb]
    · rw [if_neg hm]
  have hstore : PreInvC6 n (parsePackageStore st s t) := by
    constructor
    · show aget (aset st.packages s.package _) n = none
      rw [aget_aset_ne _ _ _ _ hnb]
      exact h.1
    · show aget (selfProvAppend (updateProvidesIndex
          (aset st.packages s.package _) s.package st.provides s.provides)
          s.package) n = none
      rw [hselfne, updateProvides_not_mem _ _ _ _ _ hnp]
      exact h.2
  unfold parsePackage
  cases h0 : aget st.packages s.package with
  | some r0 =>
      dsimp only
      split
      · exact h
      · exact hstore
  | none => exact hstore

theorem parseSource_preInvC6 (vc : String → String → Int)
    (st : GermState) (s : SrcSection) (n : String)
    (h : PreInvC6 n st) : PreInvC6 n (parseSource vc st s) := by
  constructor
  · rw [parseSource_packages]; exact h.1
  · rw [parseSource_provides]; exact h.2

theorem parseArchive_preInvC6 (vc : String → String → Int) (n : String) :
    ∀ (items : List ArchiveItem) (st : GermState),
    (∀ item ∈ items, isBinNamedB n item = false) →
    (∀ item ∈ items, ¬ n ∈ providesOf item) →
    PreInvC6 n st → PreInvC6 n (parseArchive vc st items) := by
  intro items
  induction items with
  | nil => intro st _ _ h; exact h
  | cons item rest ih =>
      intro st hb hp h
      cases item with
      | packages s =>
          apply ih _ (fun i hi => hb i (List.mem_cons_of_mem _ hi))
            (fun i hi => hp i (List.mem_cons_of_mem _ hi))
          apply parsePackage_preInvC6 vc st s "deb" n
          · have := hb _ (List.mem_cons_self _ _)
            simpa [isBinNamedB] using this
          · exact hp _ (List.mem_cons_self _ _)
          · exact h
      | installerPackages s =>
          apply ih _ (fun i hi => hb i (List.mem_cons_of_mem _ hi))
            (fun i hi => hp i (List.mem_cons_of_mem _ hi))
          apply parsePackage_preInvC6 vc st s "udeb" n
          · have := hb _ (List.mem_cons_self _ _)
            simpa [isBinNamedB] using this
          · exact hp _ (List.mem_cons_self _ _)
          · exact h
      | sources s =>
          exact ih _ (fun i hi => hb i (List.mem_cons_of_mem _ hi))
            (fun i hi => hp i (List.mem_cons_of_mem _ hi))
            (parseSource_preInvC6 vc st s n h)

theorem parsePackage_first_ingest (vc : String → String → Int)
    (st : GermState) (s : BinSection) (t : String) (n : String)
    (hn : s.package = n) (h : PreInvC6 n st) :
    ProvHeadInv n (parsePackage vc st s t) := by
  subst hn
  unfold parsePackage
  rw [h.1]
  apply parsePackageStore_provHeadInv st s t s.package (Or.inl rfl)
  rw [h.2]
  rfl

/-- C6 (amended): if a binary section named `n` is ingested before any
section providing `n` (and before any other binary section named `n`),
then after ingestion the provides list for `n`, when it exists, has `n`
itself as its first element. -/
theorem c6_provides_first_amended (vc : String → String → Int)
    (arch n : String) (pre : List ArchiveItem) (item0 : ArchiveItem)
    (post : List ArchiveItem)
    (hmid : isBinNamedB n item0 = true)
    (hpre1 : ∀ item ∈ pre, isBinNamedB n item = false)
    (hpre2 : ∀ item ∈ pre, ¬ n ∈ providesOf item) :
    (aget (parseArchive vc (initState arch)
        (pre ++ item0 :: post)).provides n).all
      (fun l => l.head? == some n) = true := by
  have hpreInv : PreInvC6 n (parseArchive vc (initState arch) pre) :=
    parseArchive_preInvC6 vc n pre (initState arch) hpre1 hpre2
      ⟨rfl, rfl⟩
  have hmidInv : ProvHeadInv n
      (parseArchive vc (parseArchive vc (initState arch) pre) [item0]) := by
    cases item0 with
    | packages s =>
        simp only [isBinNamedB, beq_iff_eq] at hmid
        exact parseArchive_provHeadInv vc n [] _
          (parsePackage_first_ingest vc _ s "deb" n hmid hpreInv)
    | installerPackages s =>
        simp only [isBinNamedB, beq_iff_eq] at hmid
        exact parseArchive_provHeadInv vc n [] _
          (parsePackage_first_ingest vc _ s "udeb" n hmid hpreInv)
    | sources s => simp [isBinNamedB] at hmid
  have hrest := parseArchive_provHeadInv vc n post _ hmidInv
  have heq : parseArchive vc (initState arch) (pre ++ item0 :: post) =
      parseArchive vc (parseArchive vc (parseArchive vc (initState arch)
        pre) [item0]) post := by
    rw [parseArchive_append vc pre (item0 :: post) (initState arch)]
    rw [show item0 :: post = [item0] ++ post from rfl]
    rw [parseArchive_append vc [item0] post _]
  rw [heq]
  exact hrest.2

def c6Items : List ArchiveItem :=
  [ArchiveItem.packages
      { package := "postfix", version := "1.0", provides := ["mta"] },
   ArchiveItem.packages { package := "mta", version := "1.0" }]

def c6State : GermState := parseArchive vcLen (initState "i386") c6Items

/-- C6 counterexample: when a provider of `mta` is ingested before the
real package `mta`, the provides list for `mta` ends, rather than
begins, with `mta`: the claim's universal ordering statement fails. -/
theorem c6_counterexample :
    aget c6State.provides "mta" = some ["postfix", "mta"] ∧
    (aget c6State.packages "mta").isSome = true ∧
    (aget c6State.packages "postfix").map PkgRec.provides =
      some ["mta"] := by
  refine ⟨?_, ?_, ?_⟩ <;> decide


/-! ## C7: seed-inheritance expansion (`SeedStructure._expand_inheritance`)

`topo_sort` (germinate/tsort.py) is not among the sources under
review; modelled from the spec (§4.3): its output is a duplicate-free
ordering of the keys in which every node appears after all nodes it
depends on.  The expansion itself is translated from the source and
proved correct for every such ordering. -/

/-- `self.inherit[name]` as read by the expansion. -/
def parents (inh : List (String × List String)) (n : String) : List String :=
  (aget inh n).getD []

/-- Strict-ancestor relation generated by the inheritance map. -/
inductive Anc (inh : List (String × List String)) : String → String → Prop
  | parent {p n : String} : p ∈ parents inh n → Anc inh p n
  | step {x p n : String} : Anc inh x p → p ∈ parents inh n → Anc inh x n

theorem Anc.trans_anc {inh : List (String × List String)} {x y z : String}
    (h1 : Anc inh x y) (h2 : Anc inh y z) : Anc inh x z := by
  induction h2 with
  | parent hp => exact Anc.step h1 hp
  | step _ hp ih => exact Anc.step ih hp

theorem anc_iff {inh : List (String × List String)} {x n : String} :
    Anc inh x n ↔ ∃ p ∈ parents inh n, x = p ∨ Anc inh x p := by
  constructor
  · intro h
    cases h with
    | parent hp => exact ⟨x, hp, Or.inl rfl⟩
    | step ha hp => exact ⟨_, hp, Or.inr ha⟩
  · rintro ⟨p, hp, rfl | ha⟩
    · exact Anc.parent hp
    · exact Anc.step ha hp

/-- The shared body of both membership-guarded appends in the expansion
loop: `if x not in seen: new_inherit.append(x); seen.add(x)`. -/
def seenAdd (acc : List String × List String) (x : String) :
    List String × List String :=
  if x ∈ acc.1 then acc else (x :: acc.1, acc.2 ++ [x])

/-- Loop body over one inheritee: splice in its (already expanded)
inheritance list, then the inheritee itself. -/
def expandInheritee (cur : List (String × List String))
    (acc : List String × List String) (inheritee : String) :
    List String × List String :=
  seenAdd ((parents cur inheritee).foldl seenAdd acc) inheritee

/-- One iteration of `_expand_inheritance`'s outer loop. -/
def expandStep (cur : List (String × List String)) (name : String) :
    List (String × List String) :=
  aset cur name ((parents cur name).foldl (expandInheritee cur) ([], [])).2

/-- `SeedStructure._expand_inheritance`, over the topologically sorted
name list. -/
def expandInheritance (inh : List (String × List String))
    (names : List String) : List (String × List String) :=
  names.foldl expandStep inh

/-- Position of the first occurrence of a name. -/
def idxOf (x : String) : List String → Nat
  | [] => 0
  | y :: rest => if y = x then 0 else idxOf x rest + 1

theorem idxOf_append_not_mem (p : String) :
    ∀ (done l : List String), ¬ p ∈ done →
    idxOf p (done ++ l) = done.length + idxOf p l := by
  intro done
  induction done with
  | nil => intro l _; simp
  | cons d ds ih =>
      intro l h
      have hd : d ≠ p := fun hh => h (hh ▸ List.mem_cons_self _ _)
      simp only [List.cons_append, idxOf, hd, if_false, List.length_cons]
      show idxOf p (ds ++ l) + 1 = ds.length + 1 + idxOf p l
      rw [ih l (fun hh => h (List.mem_cons_of_mem _ hh))]
      omega

theorem mem_done_of_idx_lt (p m : String) (done rest : List String)
    (hlt : idxOf p (done ++ m :: rest) < done.length) : p ∈ done := by
  by_contra hnd
  rw [idxOf_append_not_mem p done (m :: rest) hnd] at hlt
  omega

/-- The closure of a set of inheritees: the inheritees themselves and
their strict ancestors. -/
def ClosureUpTo (inh : List (String × List String)) (ps : List String)
    (x : String) : Prop :=
  ∃ p ∈ ps, x = p ∨ Anc inh x p

/-- The property the expansion must establish for each seed: exactly
the strict ancestors, without duplicates, ancestors first. -/
def GoodList (inh : List (String × List String)) (m : String)
    (l : List String) : Prop :=
  (∀ x, x ∈ l ↔ Anc inh x m) ∧ l.Nodup ∧
    l.Pairwise (fun a b => ¬ Anc inh b a)

theorem anc_mem_names (inh : List (String × List String))
    (names : List String)
    (hcl : ∀ m ∈ names, ∀ p ∈ parents inh m, p ∈ names) :
    ∀ {x y : String}, Anc inh x y → y ∈ names → x ∈ names := by
  intro x y h
  induction h with
  | parent hp => intro hy; exact hcl _ hy _ hp
  | step ha hp ih =>
      intro hy
      exact ih (hcl _ hy _ hp)

theorem anc_idx_lt (inh : List (String × List String))
    (names : List String)
    (hcl : ∀ m ∈ names, ∀ p ∈ parents inh m, p ∈ names)
    (hord : ∀ m ∈ names, ∀ p ∈ parents inh m,
      idxOf p names < idxOf m names) :
    ∀ {x y : String}, Anc inh x y → y ∈ names →
      idxOf x names < idxOf y names := by
  intro x y h
  induction h with
  | parent hp => intro hy; exact hord _ hy _ hp
  | step ha hp ih =>
      intro hy
      exact Nat.lt_trans (ih (hcl _ hy _ hp)) (hord _ hy _ hp)

theorem anc_irrefl (inh : List (String × List String))
    (names : List String)
    (hcl : ∀ m ∈ names, ∀ p ∈ parents inh m, p ∈ names)
    (hord : ∀ m ∈ names, ∀ p ∈ parents inh m,
      idxOf p names < idxOf m names) :
    ∀ {x : String}, x ∈ names → ¬ Anc inh x x := fun hx ha =>
  Nat.lt_irrefl _ (anc_idx_lt inh names hcl hord ha hx)

/-- Invariant of the `(seen, new_inherit)` accumulator: the seen set
mirrors the list, the list realises the predicate `cls`, has no
duplicates, is topologically ordered, and stays inside the name set. -/
structure AccInv (inh : List (String × List String)) (names : List String)
    (cls : String → Prop) (acc : List String × List String) : Prop where
  sync : ∀ x, x ∈ acc.1 ↔ x ∈ acc.2
  mem : ∀ x, x ∈ acc.2 ↔ cls x
  nodup : acc.2.Nodup
  pw : acc.2.Pairwise (fun a b => ¬ Anc inh b a)
  inNames : ∀ x ∈ acc.2, x ∈ names

theorem AccInv.congr {inh : List (String × List String)}
    {names : List String} {cls cls' : String → Prop}
    {acc : List String × List String}
    (h : AccInv inh names cls acc) (he : ∀ x, cls x ↔ cls' x) :
    AccInv inh names cls' acc :=
  ⟨h.sync, fun x => (h.mem x).trans (he x), h.nodup, h.pw, h.inNames⟩

theorem seenAdd_inv {inh : List (String × List String)}
    {names : List String} {cls : String → Prop}
    {acc : List String × List String} {r : String}
    (h : AccInv inh names cls acc) (hr1 : r ∈ names)
    (hr2 : ¬ cls r → ∀ a, cls a → ¬ Anc inh r a) :
    AccInv inh names (fun x => cls x ∨ x = r) (seenAdd acc r) := by
  unfold seenAdd
  by_cases hmem : r ∈ acc.1
  · rw [if_pos hmem]
    have hclsr : cls r := (h.mem r).mp ((h.sync r).mp hmem)
    refine ⟨h.sync, fun x => ?_, h.nodup, h.pw, h.inNames⟩
    constructor
    · intro hx; exact Or.inl ((h.mem x).mp hx)
    · rintro (hx | rfl)
      · exact (h.mem x).mpr hx
      · exact (h.mem x).mpr hclsr
  · rw [if_neg hmem]
    have hnr : ¬ cls r := fun hc => hmem ((h.sync r).mpr ((h.mem r).mpr hc))
    have hnr2 : ¬ r ∈ acc.2 := fun hc => hmem ((h.sync r).mpr hc)
    refine ⟨?_, ?_, ?_, ?_, ?_⟩
    · intro x
      simp only [List.mem_cons, List.mem_append, List.mem_singleton]
      rw [h.sync x]
      tauto
    · intro x
      simp only [List.mem_append, List.mem_singleton]
      rw [h.mem x]
    · rw [List.nodup_append]
      refine ⟨h.nodup, List.nodup_singleton r, ?_⟩
      intro a ha hb
      rw [List.mem_singleton] at hb
      subst hb
      exact hnr2 ha
    · rw [List.pairwise_append]
      refine ⟨h.pw, List.pairwise_singleton _ _, ?_⟩
      intro a ha b hb
      rw [List.mem_singleton] at hb
      subst hb
      exact hr2 hnr a ((h.mem a).mp ha)
    · intro x hx
      rcases List.mem_append.mp hx with hx | hx
      · exact h.inNames x hx
      · rw [List.mem_singleton] at hx
        exact hx ▸ hr1

theorem foldl_seenAdd_inv (inh : List (String × List String))
    (names : List String) :
    ∀ (lp : List String) (cls : String → Prop)
      (acc : List String × List String),
    (∀ x ∈ lp, x ∈ names) →
    lp.Pairwise (fun a b => ¬ Anc inh b a) →
    (∀ r ∈ lp, ∀ a, cls a → Anc inh r a → cls r) →
    AccInv inh names cls acc →
    AccInv inh names (fun x => cls x ∨ x ∈ lp) (lp.foldl seenAdd acc) := by
  intro lp
  induction lp with
  | nil =>
      intro cls acc _ _ _ h
      exact h.congr (by simp)
  | cons r rest ih =>
      intro cls acc hn hpw hcross h
      have hstep : AccInv inh names (fun x => cls x ∨ x = r)
          (seenAdd acc r) :=
        seenAdd_inv h (hn r (List.mem_cons_self _ _))
          (fun hnr a ha hanc =>
            hnr (hcross r (List.mem_cons_self _ _) a ha hanc))
      have hrest := ih (fun x => cls x ∨ x = r) (seenAdd acc r)
        (fun x hx => hn x (List.mem_cons_of_mem _ hx))
        (List.Pairwise.of_cons hpw)
        (fun r' hr' a ha hanc => by
          rcases ha with ha | rfl
          · exact Or.inl (hcross r' (List.mem_cons_of_mem _ hr') a ha hanc)
          · exact absurd hanc ((List.pairwise_cons.mp hpw).1 r' hr'))
        hstep
      simp only [List.foldl_cons]
      exact hrest.congr (by intro x; simp [List.mem_cons]; tauto)

theorem foldl_expandInheritee_inv (inh : List (String × List String))
    (names : List String)
    (hcl : ∀ m ∈ names, ∀ p ∈ parents inh m, p ∈ names)
    (hord : ∀ m ∈ names, ∀ p ∈ parents inh m,
      idxOf p names < idxOf m names)
    (cur : List (String × List String)) :
    ∀ (ps : List String) (cls : String → Prop)
      (acc : List String × List String),
    (∀ p ∈ ps, p ∈ names) →
    (∀ p ∈ ps, ∃ l, aget cur p = some l ∧ GoodList inh p l) →
    (∀ x y, Anc inh x y → cls y → cls x) →
    AccInv inh names cls acc →
    AccInv inh names (fun x => cls x ∨ ClosureUpTo inh ps x)
      (ps.foldl (expandInheritee cur) acc) := by
  intro ps
  induction ps with
  | nil =>
      intro cls acc _ _ _ h
      exact h.congr (by intro x; simp [ClosureUpTo])
  | cons p ps' ih =>
      intro cls acc hn hexp hcls h
      obtain ⟨lp, hlp, hlpmem, hlpnd, hlppw⟩ :=
        hexp p (List.mem_cons_self _ _)
      have hpn : p ∈ names := hn p (List.mem_cons_self _ _)
      have hparents : parents cur p = lp := by
        unfold parents
        rw [hlp]
        rfl
      have hmicro := foldl_seenAdd_inv inh names lp cls acc
        (fun x hx =>
          anc_mem_names inh names hcl ((hlpmem x).mp hx) hpn)
        hlppw
        (fun r _ a ha hanc => hcls r a hanc ha)
        h
      have hadd : AccInv inh names
          (fun x => (cls x ∨ x ∈ lp) ∨ x = p)
          (seenAdd (lp.foldl seenAdd acc) p) := by
        apply seenAdd_inv hmicro hpn
        intro hnp a ha hanc
        rcases ha with ha | ha
        · exact hnp (Or.inl (hcls p a hanc ha))
        · have h1 : Anc inh a p := (hlpmem a).mp ha
          exact anc_irrefl inh names hcl hord hpn (hanc.trans_anc h1)
      have hrest := ih (fun x => (cls x ∨ x ∈ lp) ∨ x = p)
        (seenAdd (lp.foldl seenAdd acc) p)
        (fun q hq => hn q (List.mem_cons_of_mem _ hq))
        (fun q hq => hexp q (List.mem_cons_of_mem _ hq))
        (by
          intro x y hanc hy
          rcases hy with (hy | hy) | rfl
          · exact Or.inl (Or.inl (hcls x y hanc hy))
          · exact Or.inl (Or.inr
              ((hlpmem x).mpr (hanc.trans_anc ((hlpmem y).mp hy))))
          · exact Or.inl (Or.inr ((hlpmem x).mpr hanc)))
        hadd
      simp only [List.foldl_cons]
      unfold expandInheritee
      rw [hparents]
      apply hrest.congr
      intro x
      constructor
      · rintro (((hx | hx) | rfl) | hx)
        · exact Or.inl hx
        · exact Or.inr ⟨p, List.mem_cons_self _ _,
            Or.inr ((hlpmem x).mp hx)⟩
        · exact Or.inr ⟨x, List.mem_cons_self _ _, Or.inl rfl⟩
        · obtain ⟨q, hq, hxq⟩ := hx
          exact Or.inr ⟨q, List.mem_cons_of_mem _ hq, hxq⟩
      · rintro (hx | ⟨q, hq, hxq⟩)
        · exact Or.inl (Or.inl (Or.inl hx))
        · rcases List.mem_cons.mp hq with rfl | hq
          · rcases hxq with rfl | hxq
            · exact Or.inl (Or.inr rfl)
            · exact Or.inl (Or.inl (Or.inr ((hlpmem x).mpr hxq)))
          · exact Or.inr ⟨q, hq, hxq⟩

/-- Invariant of the outer loop of `_expand_inheritance`: processed
names carry their fully expanded lists, unprocessed names are
untouched. -/
def OuterInv (inh : List (String × List String))
    (done : List String) (cur : List (String × List String)) : Prop :=
  (∀ m, ¬ m ∈ done → aget cur m = aget inh m) ∧
  (∀ m ∈ done, ∃ l, aget cur m = some l ∧ GoodList inh m l)

theorem expand_outer (inh : List (String × List String))
    (names : List String) (hnd : names.Nodup)
    (hcl : ∀ m ∈ names, ∀ p ∈ parents inh m, p ∈ names)
    (hord : ∀ m ∈ names, ∀ p ∈ parents inh m,
      idxOf p names < idxOf m names) :
    ∀ (todo done : List String) (cur : List (String × List String)),
    names = done ++ todo →
    OuterInv inh done cur →
    OuterInv inh names (todo.foldl expandStep cur) := by
  intro todo
  induction todo with
  | nil =>
      intro done cur hsplit hinv
      simp only [List.foldl_nil]
      rw [hsplit, List.append_nil]
      exact hinv
  | cons m todo' ih =>
      intro done cur hsplit hinv
      have hmnames : m ∈ names := by
        rw [hsplit]
        exact List.mem_append.mpr (Or.inr (List.mem_cons_self _ _))
      have hmdone : ¬ m ∈ done := by
        intro hmem
        rw [hsplit] at hnd
        exact (List.disjoint_of_nodup_append hnd) hmem
          (List.mem_cons_self _ _)
      have hcur_m : parents cur m = parents inh m := by
        unfold parents
        rw [hinv.1 m hmdone]
      have hidx_m : idxOf m names = done.length := by
        rw [hsplit, idxOf_append_not_mem m done _ hmdone]
        simp [idxOf]
      have hpar_done : ∀ p ∈ parents inh m, p ∈ done := by
        intro p hp
        have hlt := hord m hmnames p hp
        rw [hidx_m] at hlt
        rw [hsplit] at hlt
        exact mem_done_of_idx_lt p m done todo' hlt
      have hexp : ∀ p ∈ parents inh m,
          ∃ l, aget cur p = some l ∧ GoodList inh p l :=
        fun p hp => hinv.2 p (hpar_done p hp)
      have hstart : AccInv inh names (fun _ => False) ([], []) :=
        ⟨by simp, by simp, List.nodup_nil, List.Pairwise.nil, by simp⟩
      have hfold := foldl_expandInheritee_inv inh names hcl hord cur
        (parents inh m) (fun _ => False) ([], [])
        (fun p hp => hcl m hmnames p hp) hexp (by simp) hstart
      have hgood : GoodList inh m
          ((parents inh m).foldl (expandInheritee cur) ([], [])).2 := by
        refine ⟨?_, hfold.nodup, hfold.pw⟩
        intro x
        rw [hfold.mem x]
        simp only [false_or]
        rw [anc_iff]
        unfold ClosureUpTo
        constructor
        · rintro ⟨p, hp, hxp⟩
          exact ⟨p, hp, hxp.imp id id⟩
        · rintro ⟨p, hp, hxp⟩
          exact ⟨p, hp, hxp⟩
      have hnext : OuterInv inh (done ++ [m]) (expandStep cur m) := by
        constructor
        · intro m' hm'
          unfold expandStep
          rw [hcur_m]
          rw [aget_aset_ne _ _ _ _ (fun he : m = m' =>
            hm' (he ▸ List.mem_append.mpr (Or.inr
              (List.mem_singleton.mpr rfl))))]
          exact hinv.1 m' (fun hc =>
            hm' (List.mem_append.mpr (Or.inl hc)))
        · intro m' hm'
          rcases List.mem_append.mp hm' with hm' | hm'
          · have hne : m ≠ m' := fun he => hmdone (he ▸ hm')
            unfold expandStep
            rw [hcur_m, aget_aset_ne _ _ _ _ hne]
            exact hinv.2 m' hm'
          · rw [List.mem_singleton] at hm'
            subst hm'
            unfold expandStep
            rw [hcur_m, aget_aset_self]
            exact ⟨_, rfl, hgood⟩
      have hsplit' : names = (done ++ [m]) ++ todo' := by
        rw [hsplit, List.append_assoc]
        rfl
      simp only [List.foldl_cons]
      exact ih (done ++ [m]) (expandStep cur m) hsplit' hnext

/-- C7: after expansion over a topologically sorted duplicate-free name
list whose parent map is closed over the names, each name's expanded
list holds exactly its transitive ancestors, without duplicates, in
topological order (every element is preceded by all of its own
ancestors in the list). -/
theorem c7_expand_inheritance (inh : List (String × List String))
    (names : List String) (hnd : names.Nodup)
    (hkeys : ∀ n ∈ names, (aget inh n).isSome)
    (hcl : ∀ m ∈ names, ∀ p ∈ parents inh m, p ∈ names)
    (hord : ∀ m ∈ names, ∀ p ∈ parents inh m,
      idxOf p names < idxOf m names) :
    ∀ m ∈ names, ∃ l, aget (expandInheritance inh names) m = some l ∧
      (∀ x, x ∈ l ↔ Anc inh x m) ∧ l.Nodup ∧
      l.Pairwise (fun a b => ¬ Anc inh b a) := by
  have hfinal := expand_outer inh names hnd hcl hord names [] inh
    (by simp) ⟨fun _ _ => rfl, by simp⟩
  intro m hm
  obtain ⟨l, hl, hmem, hnd', hpw⟩ := hfinal.2 m hm
  exact ⟨l, hl, hmem, hnd', hpw⟩

/-- The claim's own concrete example: `A` inherits `B`, `B` inherits
`C`. -/
def c7Inh : List (String × List String) :=
  [("C", []), ("B", ["C"]), ("A", ["B"])]

def c7Names : List String := ["C", "B", "A"]

theorem c7_expand_inheritance_witness :
    aget (expandInheritance c7Inh c7Names) "A" = some ["C", "B"] ∧
    Anc c7Inh "C" "A" ∧ Anc c7Inh "B" "A" := by
  obtain ⟨l, hl, hmem, -, -⟩ := c7_expand_inheritance c7Inh c7Names
    (by decide) (by decide) (by decide) (by decide) "A" (by decide)
  have hval : aget (expandInheritance c7Inh c7Names) "A" =
      some ["C", "B"] := by decide
  have hleq : l = ["C", "B"] := Option.some.inj (hl.symm.trans hval)
  refine ⟨hval, ?_, ?_⟩
  · exact (hmem "C").mp (by rw [hleq]; simp)
  · exact (hmem "B").mp (by rw [hleq]; simp)

theorem c6_provides_first_amended_witness :
    (aget (parseArchive vcLen (initState "i386")
        [ArchiveItem.packages { package := "mta", version := "1.0" },
         ArchiveItem.packages
           { package := "postfix", version := "1.0",
             provides := ["mta"] }]).provides "mta").all
      (fun l => l.head? == some "mta") = true :=
  c6_provides_first_amended vcLen "i386" "mta" []
    (ArchiveItem.packages { package := "mta", version := "1.0" })
    [ArchiveItem.packages
      { package := "postfix", version := "1.0", provides := ["mta"] }]
    (by decide) (by decide) (by decide)


/-! ## The germination engine: plumbing

Python exceptions become `Except String`, carrying the exception class
name.  Log records below warning level (`debug`, `info`, progress) are
not modelled; warning and error records are.  State-threading helpers
mirror in-place mutation of `Germinator._seeds` /
`Germinator._output`. -/

/-- Explicit bind for `Except String`, kept as a plain `match` so that
proofs can unfold it without monad lemmas. -/
def ebind {α β : Type} (x : Except String α) (f : α → Except String β) :
    Except String β :=
  match x with
  | Except.error e => Except.error e
  | Except.ok a => f a

theorem ebind_ok {α β : Type} (a : α) (f : α → Except String β) :
    ebind (Except.ok a) f = f a := rfl

/-- Python `d[k]` raising `KeyError` when the key is absent. -/
def dget {κ α : Type} [DecidableEq κ] (m : List (κ × α)) (k : κ) :
    Except String α :=
  match aget m k with
  | some v => Except.ok v
  | none => Except.error "KeyError"

/-- In-place update of the value bound to a key (no-op if absent;
every call site has just looked the key up). -/
def aupd {κ α : Type} [DecidableEq κ] (m : List (κ × α)) (k : κ)
    (f : α → α) : List (κ × α) :=
  m.map (fun kv => if kv.1 = k then (kv.1, f kv.2) else kv)

/-- Mutate one germinated seed in place. -/
def updSeed (st : GermState) (key : String) (f : GSeed → GSeed) :
    GermState :=
  { st with seeds := aupd st.seeds key f }

/-- Mutate one per-structure output in place. -/
def updOut (st : GermState) (branch : Option String)
    (f : GOutput → GOutput) : GermState :=
  { st with outputs := aupd st.outputs branch f }

/-- `Germinator._make_seed_name`: `'%s/%s' % (branch, seedname)`;
Python renders a `None` branch as the string `"None"`. -/
def makeSeedName (branch : Option String) (seedname : String) : String :=
  (match branch with | none => "None" | some b => b) ++ "/" ++ seedname

/-- Boolean list membership for strings. -/
def bmem (x : String) (l : List String) : Bool := decide (x ∈ l)

/-- Remove the first occurrence of an element, total (identity when the
element is absent; used for Python's guarded `if x in l: l.remove(x)`). -/
def removeFirst : List String → String → List String
  | [], _ => []
  | y :: rest, x => if y = x then rest else y :: removeFirst rest x

/-- Python `list.remove`: `ValueError` when the element is absent. -/
def pyRemove (l : List String) (x : String) :
    Except String (List String) :=
  if x ∈ l then Except.ok (removeFirst l x)
  else Except.error "ValueError"

def eIsOk {α : Type} : Except String α → Bool
  | Except.ok _ => true
  | Except.error _ => false

/-- Look up a list of seed names in `Germinator._seeds` (the
comprehension shared by `_inner_seeds`, `_strictly_outer_seeds` and
`_outer_seeds`), pairing each with its full key. -/
def lookupSeeds (st : GermState) (branch : Option String) :
    List String → Except String (List (String × GSeed))
  | [] => Except.ok []
  | n :: rest =>
      ebind (dget st.seeds (makeSeedName branch n)) fun sd =>
      ebind (lookupSeeds st branch rest) fun tail =>
      Except.ok ((makeSeedName branch n, sd) :: tail)

/-- `Germinator._supported`: the supported seed, or `None` when it is
not planted (`except KeyError`). -/
def supportedG (st : GermState) (stc : SeedStruct) : Option GSeed :=
  aget st.seeds (makeSeedName stc.branch stc.supported)

/-- `Germinator._is_pruned`. -/
def isPruned (st : GermState) (sd : GSeed) (pkg : String) :
    Except String Bool :=
  if sd.diKernelVersions = [] then Except.ok false
  else
    ebind (dget st.packages pkg) fun pr =>
    Except.ok (decide (pr.kernelVersion ≠ "" ∧
      pr.kernelVersion ∉ sd.diKernelVersions))

/-- The inner loop of `_weed_blacklist` / the blacklist check of
`_add_package`: the first outer seed whose blacklist contains the
package. -/
def firstBlacklisted (outs : List (Option GSeed)) (pkg : String) :
    Option GSeed :=
  outs.findSome? (fun o =>
    match o with
    | some sd => if pkg ∈ sd.blacklist then some sd else none
    | none => none)

/-- The `outerseeds` list consulted for blacklists: just the supported
seed in the build tree, else the seed and everything inheriting it. -/
def outerSeedOpts (st : GermState) (stc : SeedStruct) (seedname : String)
    (buildTree : Bool) : Except String (List (Option GSeed)) :=
  if buildTree then Except.ok [supportedG st stc]
  else
    ebind (lookupSeeds st stc.branch (stc.outerSeeds seedname)) fun l =>
    Except.ok (l.map (fun kv => some kv.2))

/-- The package loop of `_weed_blacklist`: split into survivors and,
for each blacklisted package, an error record plus the
`_blacklist_seen` mark on the subject seed. -/
def weedLoop (stc : SeedStruct) (seedname why : String)
    (outs : List (Option GSeed)) :
    List String → GermState → List String × GermState
  | [], st => ([], st)
  | pkg :: rest, st =>
      match firstBlacklisted outs pkg with
      | some osd =>
          let st := logMsg st .error ("Package " ++ pkg ++
            " blacklisted in " ++ osd.name ++ " but seeded in " ++
            seedname ++ " (" ++ why ++ ")")
          let st := updSeed st (makeSeedName stc.branch seedname)
            (fun s => { s with blacklistSeen := true })
          weedLoop stc seedname why outs rest st
      | none =>
          let r := weedLoop stc seedname why outs rest st
          (pkg :: r.1, r.2)

/-- `Germinator._weed_blacklist`. -/
def weedBlacklist (st : GermState) (stc : SeedStruct) (seedname : String)
    (pkgs : List String) (buildTree : Bool) (why : String) :
    Except String (List String × GermState) :=
  ebind (outerSeedOpts st stc seedname buildTree) fun outs =>
  Except.ok (weedLoop stc seedname why outs pkgs st)

/-- `Germinator._already_seeded`. -/
def alreadySeeded (st : GermState) (stc : SeedStruct)
    (seedname pkg : String) : Except String Bool :=
  ebind (lookupSeeds st stc.branch (stc.innerSeeds seedname)) fun inner =>
  Except.ok (inner.any (fun kv =>
    bmem pkg kv.2.entries || bmem pkg kv.2.recommendsEntries))

/-- `Germinator._follow_recommends` (always called with a seed). -/
def followRecommendsG (stc : SeedStruct) (sd : GSeed) : Bool :=
  if "follow-recommends" ∈ sd.features then true
  else if "no-follow-recommends" ∈ sd.features then false
  else if "follow-recommends" ∈ stc.features then true
  else false

/-- `Germinator._check_versioned_dependency`.  An unknown comparator
yields `False` (its error record is below the modelled levels'
call sites and is omitted as a log-only effect). -/
def checkVersionedDependency (vc : String → String → Int)
    (st : GermState) (depname depver deptype : String) : Bool :=
  match aget st.packages depname with
  | none => false
  | some pr =>
      if deptype = "" then true
      else
        let compare := vc pr.version depver
        if deptype = "<=" then decide (compare ≤ 0)
        else if deptype = ">=" then decide (0 ≤ compare)
        else if deptype = "<" then decide (compare < 0)
        else if deptype = ">" then decide (0 < compare)
        else if deptype = "=" then decide (compare = 0)
        else if deptype = "!=" then decide (compare ≠ 0)
        else false

/-- `Germinator._allowed_dependency` (the warning for a virtual
`depend` is a log-only effect on a pure predicate and is omitted). -/
def allowedDependency (st : GermState) (pkg depend : String)
    (sdOpt : Option GSeed) (buildDepend : Bool) : Except String Bool :=
  match aget st.packages depend with
  | none => Except.ok false
  | some _ =>
      ebind (match sdOpt with
             | some sd => isPruned st sd depend
             | none => Except.ok false) fun pruned =>
      if pruned then Except.ok false
      else if buildDepend then
        ebind (dget st.packagetype depend) fun t =>
        Except.ok (decide (t = "deb"))
      else
        ebind (dget st.packagetype pkg) fun tp =>
        ebind (dget st.packagetype depend) fun td =>
        Except.ok (decide (tp = td))

/-- `Germinator._allowed_virtual_dependency`. -/
def allowedVirtualDependency (st : GermState) (pkg deptype : String) :
    Bool :=
  match aget st.packagetype pkg with
  | some "udeb" => true
  | _ => decide (deptype = "")

/-- The provider-filtering comprehension
`[d for d in provides if d in packages and allowed(pkg, d, seed, bd)]`
used by `_already_satisfied`, `_promote_dependency` and
`_new_dependency`. -/
def filterAllowed (st : GermState) (pkg : String) (sdOpt : Option GSeed)
    (buildDepend : Bool) : List String → Except String (List String)
  | [] => Except.ok []
  | d :: rest =>
      if amem st.packages d then
        ebind (allowedDependency st pkg d sdOpt buildDepend) fun a =>
        ebind (filterAllowed st pkg sdOpt buildDepend rest) fun tail =>
        Except.ok (if a then d :: tail else tail)
      else filterAllowed st pkg sdOpt buildDepend rest

/-- The `trylist` loop of `_already_satisfied`. -/
def satTry (st : GermState) (stc : SeedStruct) (sd : GSeed)
    (withBuild : Bool) : List String → Except String Bool
  | [] => Except.ok false
  | trydep :: rest =>
      ebind (lookupSeeds st stc.branch (stc.innerSeeds sd.name))
        fun inner =>
      if inner.any (fun kv =>
          if withBuild then bmem trydep kv.2.build
          else bmem trydep kv.2.notBuild) then Except.ok true
      else if bmem trydep sd.entries ||
          bmem trydep sd.recommendsEntries then Except.ok true
      else satTry st stc sd withBuild rest

/-- `Germinator._already_satisfied`.  The `else: return False` of its
`if`/`elif` becomes an empty trylist, over which the loop returns
`False`. -/
def alreadySatisfied (vc : String → String → Int) (st : GermState)
    (stc : SeedStruct) (sd : GSeed) (pkg : String) (dep : Atom)
    (buildDepend withBuild : Bool) : Except String Bool :=
  ebind
    (if allowedVirtualDependency st pkg dep.op &&
        amem st.provides dep.name then
      filterAllowed st pkg (some sd) buildDepend
        ((aget st.provides dep.name).getD [])
    else if checkVersionedDependency vc st dep.name dep.ver dep.op then
      ebind (allowedDependency st pkg dep.name (some sd) buildDepend)
        fun a =>
      Except.ok (if a then [dep.name] else [])
    else Except.ok []) fun trylist =>
  satTry st stc sd withBuild trylist

/-- The alternatives loop heading `_add_dependency_tree`'s group
processing: is any alternative of the group already satisfied? -/
def anySatisfied (vc : String → String → Int) (st : GermState)
    (stc : SeedStruct) (sd : GSeed) (pkg : String)
    (buildDepend withBuild : Bool) : List Atom → Except String Bool
  | [] => Except.ok false
  | dep :: rest =>
      ebind (alreadySatisfied vc st stc sd pkg dep buildDepend withBuild)
        fun s =>
      if s then Except.ok true
      else anySatisfied vc st stc sd pkg buildDepend withBuild rest

/-! ## Pattern filtering (`Germinator._filter_packages`)

The two pattern engines it delegates to are Python standard-library
collaborators outside the sources under review: `fnmatch` globs are
modelled from their documented semantics (`*`, `?`, `[seq]`, `[!seq]`
with ranges), and the `/.../` extended-regular-expression branch is
modelled on its literal-and-dot fragment.  No claim below evaluates
either matcher: the concrete scenarios use exact-name patterns, which
`_filter_packages` handles itself in its final branch. -/

/-- One character against a `[...]` body: literals, and `a-b` ranges. -/
def classMatchChars : List Char → Char → Bool
  | a :: '-' :: b :: rest, c =>
      (decide (a.toNat ≤ c.toNat) && decide (c.toNat ≤ b.toNat)) ||
        classMatchChars rest c
  | a :: rest, c => (a = c) || classMatchChars rest c
  | [], _ => false

/-- Body of `classSpan` after the optional negation marker. -/
def classSpanCore (neg : Bool) (cs1 : List Char) :
    Option (Bool × List Char × List Char) :=
  match cs1 with
  | ']' :: rest =>
      match chFind rest ']' with
      | some i => some (neg, ']' :: rest.take i, rest.drop (i + 1))
      | none => none
  | _ =>
      match chFind cs1 ']' with
      | some i => some (neg, cs1.take i, cs1.drop (i + 1))
      | none => none

/-- Split a `[...]` pattern suffix into the class body and the rest,
mirroring `fnmatch.translate`: a leading `!` negates, a first `]` is a
literal member, and a class with no closing `]` is no class at all. -/
def classSpan (cs : List Char) : Option (Bool × List Char × List Char) :=
  match cs with
  | '!' :: rest => classSpanCore true rest
  | _ => classSpanCore false cs

theorem classSpanCore_rest_le (neg : Bool) (cs1 : List Char) (b : Bool)
    (body rest : List Char)
    (h : classSpanCore neg cs1 = some (b, body, rest)) :
    rest.length ≤ cs1.length := by
  unfold classSpanCore at h
  split at h
  · split at h
    · simp only [Option.some.injEq, Prod.mk.injEq] at h
      obtain ⟨-, -, hr⟩ := h
      subst hr
      simp only [List.length_drop, List.length_cons]
      omega
    · exact absurd h (by simp)
  · split at h
    · simp only [Option.some.injEq, Prod.mk.injEq] at h
      obtain ⟨-, -, hr⟩ := h
      subst hr
      simp only [List.length_drop]
      omega
    · exact absurd h (by simp)

theorem classSpan_rest_le (cs : List Char) (b : Bool)
    (body rest : List Char) (h : classSpan cs = some (b, body, rest)) :
    rest.length ≤ cs.length := by
  unfold classSpan at h
  split at h
  · exact le_trans (classSpanCore_rest_le _ _ _ _ _ h) (by simp)
  · exact classSpanCore_rest_le _ _ _ _ _ h

/-- `fnmatch`-style glob match. -/
def globMatch : List Char → List Char → Bool
  | [], [] => true
  | [], _ :: _ => false
  | '*' :: ps, [] => globMatch ps []
  | '*' :: ps, c :: cs => globMatch ps (c :: cs) || globMatch ('*' :: ps) cs
  | '?' :: _, [] => false
  | '?' :: ps, _ :: cs => globMatch ps cs
  | '[' :: _, [] => false
  | '[' :: ps, c :: cs =>
      match h : classSpan ps with
      | some (neg, body, rest) =>
          (classMatchChars body c != neg) && globMatch rest cs
      | none => ('[' = c) && globMatch ps cs
  | p :: ps, c :: cs => (p = c) && globMatch ps cs
  | _ :: _, [] => false
termination_by p s => p.length + s.length
decreasing_by
  all_goals simp_wf
  all_goals try omega
  all_goals have hle := classSpan_rest_le _ _ _ _ h
  all_goals omega

/-- The modelled `/.../` fragment: a literal with `.` wildcards,
anchored nowhere. -/
def reLitMatch : List Char → List Char → Bool
  | [], _ => true
  | _ :: _, [] => false
  | p :: ps, c :: cs => (p = '.' || p = c) && reLitMatch ps cs

/-- `re.search` over the modelled fragment. -/
def reSearch (pat : List Char) : List Char → Bool
  | [] => reLitMatch pat []
  | c :: cs => reLitMatch pat (c :: cs) || reSearch pat cs

/-- `Germinator._filter_packages`. -/
def filterPackages (packages : List String) (pattern : String) :
    List String :=
  let filtered :=
    if pyStartsWith pattern ['/'] && pyEndsWith pattern ['/'] then
      packages.filter (fun p =>
        reSearch (pattern.data.drop 1).dropLast p.data)
    else if '*' ∈ pattern.data ∨ '?' ∈ pattern.data ∨
        '[' ∈ pattern.data then
      packages.filter (fun p => globMatch pattern.data p.data)
    else
      if pattern ∈ packages then [pattern] else []
  pysort filtered

/-! ## The dependency walk

`_add_package`, `_add_dependency_tree`, `_promote_dependency`,
`_new_dependency` and `_add_dependency` are mutually recursive.  They
are embedded as one structurally fuel-recursive interpreter over a
defunctionalised call type, so that concrete runs reduce inside the
kernel; each Python function (and each of its inner loops) is one
constructor, and every call, including a loop moving to the next list
element, costs one unit of fuel.  Exhausted fuel is Python's
`RecursionError`. -/

/-- The four boolean flags threaded through the walk. -/
structure DepFlags : Type where
  buildDepend : Bool := false
  secondClass : Bool := false
  buildTree : Bool := false
  recommends : Bool := false
deriving DecidableEq, Repr

/-- Call forms of the dependency walk. -/
inductive ECall : Type
  /-- `_add_package seedname pkg why second_class build_tree recommends`. -/
  | pkgAdd (seedname pkg why : String)
      (secondClass buildTree recommends : Bool)
  /-- `_add_dependency_tree` before its flag fix-up. -/
  | depTree (seedname pkg : String) (groups : DepList) (f : DepFlags)
  /-- `_add_dependency_tree`'s loop over the alternative groups. -/
  | depGroups (seedname pkg : String) (groups : DepList) (f : DepFlags)
  /-- The promotion loop over one group's alternatives. -/
  | depGroupProm (seedname pkg : String) (group : List Atom)
      (first : Bool) (f : DepFlags)
  /-- The new-dependency loop over one group's alternatives. -/
  | depGroupNew (seedname pkg : String) (group : List Atom) (f : DepFlags)
  /-- `_promote_dependency`. -/
  | promDep (seedname pkg : String) (dep : Atom) (close : Bool)
      (f : DepFlags)
  /-- `_promote_dependency`'s loop over the trylist. -/
  | promTry (seedname pkg : String) (trylist : List String)
      (close : Bool) (f : DepFlags)
  /-- `_new_dependency`. -/
  | newDep (seedname pkg : String) (dep : Atom) (f : DepFlags)
  /-- `_add_dependency`. -/
  | addDep (seedname pkg : String) (dependlist : List String)
      (f : DepFlags)
  /-- `_add_dependency`'s final loop calling `_add_package`. -/
  | addDepPkgs (seedname why : String) (deps : List String) (f : DepFlags)

/-- The interpreter of the dependency walk.  The result's boolean is
the Python return value (`_add_package` returns `None`, rendered as
`false`). -/
def engine (vc : String → String → Int) (stc : SeedStruct) :
    Nat → ECall → GermState → Except String (Bool × GermState)
  | 0, _, _ => Except.error "RecursionError"
  | Nat.succ fuel, c, st =>
      match c with
      | .pkgAdd seedname pkg why secondClass buildTree recommends =>
          ebind (dget st.seeds (makeSeedName stc.branch seedname)) fun sd =>
          ebind (isPruned st sd pkg) fun pruned =>
          if pruned then
            Except.ok (false, logMsg st .warning
              ("Pruned " ++ pkg ++ " from " ++ seedname))
          else
          ebind (outerSeedOpts st stc seedname buildTree) fun outs =>
          match firstBlacklisted outs pkg with
          | some osd =>
              let st := logMsg st .error ("Package " ++ pkg ++
                " blacklisted in " ++ osd.name ++ " but seeded in " ++
                seedname ++ " (" ++ why ++ ")")
              let st := updSeed st (makeSeedName stc.branch seedname)
                (fun s => { s with blacklistSeen := true })
              Except.ok (false, st)
          | none =>
          let secondClass := secondClass || buildTree
          let key := makeSeedName stc.branch seedname
          ebind (dget st.outputs stc.branch) fun _ =>
          let st := updOut st stc.branch
            (fun o => { o with all := sadd o.all pkg })
          ebind (lookupSeeds st stc.branch (stc.innerSeeds seedname))
            fun inner =>
          let st :=
            if inner.any (fun kv => bmem pkg kv.2.build) then st
            else updSeed st key (fun s => { s with build := sadd s.build pkg })
          let st :=
            if buildTree then st
            else if inner.any (fun kv => bmem pkg kv.2.notBuild) then st
            else updSeed st key
              (fun s => { s with notBuild := sadd s.notBuild pkg })
          let st := updSeed st key (fun s =>
            { s with reasons :=
                (rememberWhy s.reasons pkg why buildTree recommends) })
          let st := updOut st stc.branch (fun o =>
            { o with allReasons :=
                (rememberWhy o.allReasons pkg why buildTree recommends) })
          ebind (dget st.packages pkg) fun pr =>
          let st := pr.provides.foldl (fun st prov =>
            updOut st stc.branch (fun o =>
              { o with pkgprovides := (aset o.pkgprovides prov
                  (sadd ((aget o.pkgprovides prov).getD []) pkg)) })) st
          ebind (engine vc stc fuel (.depTree seedname pkg pr.preDepends
            { secondClass := secondClass, buildTree := buildTree }) st)
            fun r1 =>
          ebind (engine vc stc fuel (.depTree seedname pkg pr.depends
            { secondClass := secondClass, buildTree := buildTree }) r1.2)
            fun r2 =>
          ebind
            (if followRecommendsG stc sd ||
                decide (pr.sectionField = "metapackages") then
              engine vc stc fuel (.depTree seedname pkg pr.recommends
                { secondClass := secondClass, buildTree := buildTree,
                  recommends := true }) r2.2
            else Except.ok (false, r2.2)) fun r3 =>
          let st := r3.2
          let src := pr.source
          match aget st.sources src with
          | none =>
              Except.ok (false, logMsg st .error
                ("Missing source package: " ++ src ++ " (for " ++ pkg ++ ")"))
          | some srcrec =>
          ebind (lookupSeeds st stc.branch (stc.innerSeeds seedname))
            fun inner2 =>
          if secondClass && inner2.any (fun kv => bmem src kv.2.buildSrcs)
            then Except.ok (false, st)
          else if !secondClass &&
              inner2.any (fun kv => bmem src kv.2.notBuildSrcs) then
            Except.ok (false, st)
          else
          ebind (dget st.outputs stc.branch) fun out2 =>
          let st :=
            if buildTree then
              let st := updSeed st key (fun s =>
                { s with buildSourcepkgs := sadd s.buildSourcepkgs src })
              if amem out2.blacklist src then
                updOut st stc.branch (fun o =>
                  { o with blacklisted := sadd o.blacklisted src })
              else st
            else
              let st :=
                if src ∈ out2.allSrcs then
                  { st with seeds := (st.seeds.map (fun kv =>
                      (kv.1, { kv.2 with buildSourcepkgs :=
                          (sdiscard kv.2.buildSourcepkgs src) }))) }
                else st
              updSeed st key (fun s =>
                { s with
                  notBuildSrcs := (sadd s.notBuildSrcs src)
                  sourcepkgs := (sadd s.sourcepkgs src) })
          let st := updOut st stc.branch
            (fun o => { o with allSrcs := sadd o.allSrcs src })
          let st := updSeed st key
            (fun s => { s with buildSrcs := sadd s.buildSrcs src })
          ebind (engine vc stc fuel (.depTree seedname pkg
            srcrec.buildDepends { buildDepend := true }) st) fun r4 =>
          engine vc stc fuel (.depTree seedname pkg
            srcrec.buildDependsIndep { buildDepend := true }) r4.2
      | .depTree seedname pkg groups f =>
          let bt := f.buildDepend || f.buildTree
          let sc := bt || f.secondClass
          engine vc stc fuel (.depGroups seedname pkg groups
            { buildDepend := f.buildDepend, secondClass := sc,
              buildTree := bt, recommends := f.recommends }) st
      | .depGroups seedname pkg groups f =>
          match groups with
          | [] => Except.ok (false, st)
          | group :: rest =>
              ebind (dget st.seeds (makeSeedName stc.branch seedname))
                fun sd =>
              ebind (anySatisfied vc st stc sd pkg f.buildDepend
                f.secondClass group) fun sat =>
              if sat then
                engine vc stc fuel (.depGroups seedname pkg rest f) st
              else
              ebind (engine vc stc fuel
                (.depGroupProm seedname pkg group true f) st) fun rp =>
              if rp.1 then
                engine vc stc fuel (.depGroups seedname pkg rest f) rp.2
              else
              ebind (engine vc stc fuel
                (.depGroupNew seedname pkg group f) rp.2) fun rn =>
              if rn.1 then
                engine vc stc fuel (.depGroups seedname pkg rest f) rn.2
              else
                let st2 :=
                  if group.length > 1 then
                    logMsg rn.2 .error ("Nothing to choose to satisfy " ++ pkg)
                  else rn.2
                engine vc stc fuel (.depGroups seedname pkg rest f) st2
      | .depGroupProm seedname pkg group first f =>
          match group with
          | [] => Except.ok (false, st)
          | dep :: rest =>
              ebind (engine vc stc fuel
                (.promDep seedname pkg dep (!first) f) st) fun r =>
              if r.1 then Except.ok (true, r.2)
              else engine vc stc fuel
                (.depGroupProm seedname pkg rest false f) r.2
      | .depGroupNew seedname pkg group f =>
          match group with
          | [] => Except.ok (false, st)
          | dep :: rest =>
              ebind (engine vc stc fuel
                (.newDep seedname pkg dep f) st) fun r =>
              if r.1 then Except.ok (true, r.2)
              else engine vc stc fuel (.depGroupNew seedname pkg rest f) r.2
      | .promDep seedname pkg dep close f =>
          ebind (dget st.seeds (makeSeedName stc.branch seedname)) fun sd =>
          let c1 := checkVersionedDependency vc st dep.name dep.ver dep.op
          ebind (if c1 then
              allowedDependency st pkg dep.name (some sd) f.buildDepend
            else Except.ok false) fun a1 =>
          ebind
            (if c1 && a1 then Except.ok [dep.name]
             else if allowedVirtualDependency st pkg dep.op &&
                 amem st.provides dep.name then
               filterAllowed st pkg (some sd) f.buildDepend
                 ((aget st.provides dep.name).getD [])
             else Except.ok []) fun trylist =>
          engine vc stc fuel (.promTry seedname pkg trylist close f) st
      | .promTry seedname pkg trylist close f =>
          match trylist with
          | [] => Except.ok (false, st)
          | trydep :: rest =>
              ebind (lookupSeeds st stc.branch
                (stc.strictlyOuterSeeds seedname)) fun lessersAll =>
              let lessers :=
                if close then
                  lessersAll.filter (fun kv => bmem seedname kv.2.closeSeeds)
                else lessersAll
              match lessers.find? (fun kv =>
                  bmem trydep kv.2.entries ||
                  bmem trydep kv.2.recommendsEntries) with
              | some lkv =>
                  let st :=
                    if f.secondClass then st
                    else
                      let st := updSeed st lkv.1 (fun s =>
                        { s with
                          entries := (removeFirst s.entries trydep)
                          recommendsEntries :=
                            (removeFirst s.recommendsEntries trydep) })
                      logMsg st .warning ("Promoted " ++ trydep ++
                        " from " ++ lkv.2.name ++ " to " ++ seedname ++
                        " to satisfy " ++ pkg)
                  engine vc stc fuel (.addDep seedname pkg [trydep] f) st
              | none =>
                  engine vc stc fuel (.promTry seedname pkg rest close f) st
      | .newDep seedname pkg dep f =>
          ebind (dget st.seeds (makeSeedName stc.branch seedname)) fun sd =>
          let c1 := checkVersionedDependency vc st dep.name dep.ver dep.op
          ebind (if c1 then
              allowedDependency st pkg dep.name (some sd) f.buildDepend
            else Except.ok false) fun a1 =>
          if c1 && a1 then
            engine vc stc fuel (.addDep seedname pkg [dep.name] f) st
          else if allowedVirtualDependency st pkg dep.op &&
              amem st.provides dep.name then
            ebind (filterAllowed st pkg (some sd) f.buildDepend
              ((aget st.provides dep.name).getD [])) fun reallist =>
            match reallist with
            | [] =>
                Except.ok (false, logMsg st .error
                  ("Nothing to choose out of " ++ dep.name ++
                    " to satisfy " ++ pkg))
            | depname0 :: _ =>
                ebind (dget st.packages depname0) fun pr0 =>
                let dependlist :=
                  if pr0.kernelVersion ≠ "" then
                    reallist.filter (fun d =>
                      sd.diKernelVersions.isEmpty ||
                        (match aget st.packages d with
                         | some p => bmem p.kernelVersion sd.diKernelVersions
                         | none => false))
                  else [depname0]
                engine vc stc fuel (.addDep seedname pkg dependlist f) st
          else
            let desc :=
              if f.buildDepend then "build-dependency"
              else if f.recommends then "recommendation"
              else "dependency"
            let depstr :=
              if dep.op = "" then dep.name
              else dep.name ++ " (" ++ dep.op ++ " " ++ dep.ver ++ ")"
            Except.ok (false, logMsg st .error
              ("Unknown " ++ desc ++ " " ++ depstr ++ " by " ++ pkg))
      | .addDep seedname pkg dependlist f =>
          ebind
            (if f.buildTree && f.buildDepend then
              ebind (dget st.packages pkg) fun pr =>
              Except.ok (pr.source ++ " (Build-Depend)")
            else if f.recommends then Except.ok (pkg ++ " (Recommends)")
            else Except.ok pkg) fun why =>
          ebind (weedBlacklist st stc seedname dependlist f.buildTree why)
            fun wr =>
          if wr.1.isEmpty then Except.ok (false, wr.2)
          else
            let key := makeSeedName stc.branch seedname
            let st :=
              if f.buildTree then
                updSeed wr.2 key (fun s =>
                  { s with buildDepends := wr.1.foldl sadd s.buildDepends })
              else
                updSeed wr.2 key (fun s =>
                  { s with depends := wr.1.foldl sadd s.depends })
            ebind (engine vc stc fuel
              (.addDepPkgs seedname why wr.1 f) st) fun r =>
            Except.ok (true, r.2)
      | .addDepPkgs seedname why deps f =>
          match deps with
          | [] => Except.ok (false, st)
          | d :: rest =>
              -- `_add_dependency` passes `build_tree, second_class`
              -- positionally into `_add_package`'s
              -- `second_class, build_tree` slots; the swap is kept.
              ebind (engine vc stc fuel
                (.pkgAdd seedname d why f.buildTree f.secondClass
                  f.recommends) st) fun r =>
              engine vc stc fuel (.addDepPkgs seedname why rest f) r.2

/-- `Germinator._add_package`, fuelled. -/
def addPackage (vc : String → String → Int) (stc : SeedStruct)
    (fuel : Nat) (st : GermState) (seedname pkg why : String)
    (secondClass buildTree recommends : Bool) : Except String GermState :=
  ebind (engine vc stc fuel
    (.pkgAdd seedname pkg why secondClass buildTree recommends) st) fun r =>
  Except.ok r.2

/-! ## Rescue passes (`Germinator._rescue_includes`) and `grow` -/

/-- The per-package loop of `_rescue_includes`.  The promotion step
removes the matched package from the SUBJECT seed's entry list
(`seed._entries.remove(pkg)`), which raises `ValueError` whenever the
package is an entry of the strictly-outer seed but not of the subject
seed itself. -/
def rescuePkgLoop (vc : String → String → Int) (stc : SeedStruct)
    (fuel : Nat) (seedname rescueSeedname src : String)
    (buildTree : Bool) : List String → GermState → Except String GermState
  | [], st => Except.ok st
  | pkg :: rest, st =>
      ebind (dget st.outputs stc.branch) fun out =>
      if pkg ∈ out.all then
        rescuePkgLoop vc stc fuel seedname rescueSeedname src buildTree
          rest st
      else
        let key := makeSeedName stc.branch seedname
        ebind (dget st.seeds key) fun sd =>
        ebind (lookupSeeds st stc.branch (stc.strictlyOuterSeeds seedname))
          fun lessers =>
        ebind
          (match lessers.find? (fun kv => bmem pkg kv.2.entries) with
           | some lkv =>
               ebind (pyRemove sd.entries pkg) fun ents =>
               let st := updSeed st key (fun s => { s with entries := ents })
               Except.ok (logMsg st .warning ("Promoted " ++ pkg ++
                 " from " ++ lkv.2.name ++ " to " ++ seedname ++
                 " due to " ++ pyTitle rescueSeedname ++ "-Includes"))
           | none => Except.ok st) fun st =>
        let st :=
          if buildTree then
            updSeed st key (fun s =>
              { s with buildDepends := sadd s.buildDepends pkg })
          else
            updSeed st key (fun s => { s with depends := sadd s.depends pkg })
        ebind (addPackage vc stc fuel st seedname pkg
          ("Rescued from " ++ src) false buildTree false) fun st =>
        rescuePkgLoop vc stc fuel seedname rescueSeedname src buildTree
          rest st

/-- The per-source loop of `_rescue_includes`. -/
def rescueSrcLoop (vc : String → String → Int) (stc : SeedStruct)
    (fuel : Nat) (seedname rescueSeedname : String) (buildTree : Bool) :
    List String → GermState → Except String GermState
  | [], st => Except.ok st
  | src :: rest, st =>
      ebind (dget st.sources src) fun srcrec =>
      let rescue := srcrec.binaries.filter (fun p => amem st.packages p)
      ebind (dget st.seeds (makeSeedName stc.branch seedname)) fun sd =>
      let included :=
        match aget sd.includes rescueSeedname with
        | some incs =>
            incs.foldl (fun acc inc =>
              sunion acc (filterPackages rescue inc)) []
        | none => []
      let included :=
        match aget sd.excludes rescueSeedname with
        | some excs =>
            excs.foldl (fun acc exc =>
              sminus acc (filterPackages rescue exc)) included
        | none => included
      ebind (rescuePkgLoop vc stc fuel seedname rescueSeedname src
        buildTree included st) fun st =>
      rescueSrcLoop vc stc fuel seedname rescueSeedname buildTree rest st

/-- `Germinator._rescue_includes`.  Its guard tests the plain rescue
seed name against `_seeds`, whose keys are the `branch/name` forms, so
only the synthetic `"extra"` name passes. -/
def rescueIncludes (vc : String → String → Int) (stc : SeedStruct)
    (fuel : Nat) (seedname rescueSeedname : String) (buildTree : Bool)
    (st : GermState) : Except String GermState :=
  ebind (dget st.outputs stc.branch) fun _ =>
  match aget st.seeds (makeSeedName stc.branch seedname) with
  | none => Except.ok st
  | some _ =>
      if (¬ amem st.seeds rescueSeedname) ∧ rescueSeedname ≠ "extra" then
        Except.ok st
      else
        ebind
          (if rescueSeedname = "extra" then
            ebind (lookupSeeds st stc.branch (stc.innerSeeds seedname))
              fun inner =>
            Except.ok (inner.map (fun kv => kv.2))
          else
            ebind (dget st.seeds (makeSeedName stc.branch rescueSeedname))
              fun rsd =>
            Except.ok [rsd]) fun rescueSeeds =>
        let srcs := rescueSeeds.foldl (fun acc r =>
          sunion acc (if buildTree then r.buildSrcs else r.notBuildSrcs)) []
        rescueSrcLoop vc stc fuel seedname rescueSeedname buildTree srcs st

/-- The seed-entry loop of `grow`. -/
def growAddLoop (vc : String → String → Int) (stc : SeedStruct)
    (fuel : Nat) (seedname why : String) :
    List String → GermState → Except String GermState
  | [], st => Except.ok st
  | pkg :: rest, st =>
      ebind (addPackage vc stc fuel st seedname pkg why false false false)
        fun st =>
      growAddLoop vc stc fuel seedname why rest st

/-- `output._seednames` up to and including the current seed (`grow`'s
rescue loop breaks after processing the current seed's own name). -/
def takeUpTo (x : String) : List String → List String
  | [] => []
  | y :: rest => if y = x then [y] else y :: takeUpTo x rest

/-- The rescue loop of `grow`. -/
def growRescueLoop (vc : String → String → Int) (stc : SeedStruct)
    (fuel : Nat) (seedname : String) :
    List String → GermState → Except String GermState
  | [], st => Except.ok st
  | r :: rest, st =>
      ebind (rescueIncludes vc stc fuel seedname r false st) fun st =>
      growRescueLoop vc stc fuel seedname rest st

/-- The per-seed loop of `grow`. -/
def growLoop (vc : String → String → Int) (stc : SeedStruct)
    (fuel : Nat) (allNames : List String) :
    List String → GermState → Except String GermState
  | [], st => Except.ok st
  | seedname :: rest, st =>
      let key := makeSeedName stc.branch seedname
      ebind (dget st.seeds key) fun sd =>
      if sd.grown then growLoop vc stc fuel allNames rest st
      else
        let why :=
          match stc.branch with
          | none => pyTitle seedname ++ " seed"
          | some b => pyTitle b ++ " " ++ seedname ++ " seed"
        ebind (weedBlacklist st stc seedname sd.entries false why) fun w1 =>
        let st := updSeed w1.2 key (fun s => { s with entries := w1.1 })
        ebind (dget st.seeds key) fun sd1 =>
        ebind (weedBlacklist st stc seedname sd1.recommendsEntries false
          why) fun w2 =>
        let st := updSeed w2.2 key
          (fun s => { s with recommendsEntries := w2.1 })
        ebind (dget st.seeds key) fun sd2 =>
        ebind (growAddLoop vc stc fuel seedname why
          (sd2.entries ++ sd2.recommendsEntries) st) fun st =>
        ebind (growRescueLoop vc stc fuel seedname
          (takeUpTo seedname allNames) st) fun st =>
        ebind (rescueIncludes vc stc fuel seedname "extra" false st)
          fun st =>
        let st := updSeed st key (fun s => { s with grown := true })
        growLoop vc stc fuel allNames rest st

/-- `Germinator.grow`. -/
def grow (vc : String → String → Int) (stc : SeedStruct) (fuel : Nat)
    (st : GermState) : Except String GermState :=
  ebind (dget st.outputs stc.branch) fun out =>
  ebind (growLoop vc stc fuel out.seednames out.seednames st) fun st =>
  match aget st.seeds (makeSeedName stc.branch stc.supported) with
  | none => Except.ok st
  | some ssd => rescueIncludes vc stc fuel ssd.name "extra" true st

/-! ## Extras (`Germinator.add_extras`) -/

/-- The binaries loop of one `add_extras` scan. -/
def extrasBinLoop (vc : String → String → Int) (stc : SeedStruct)
    (fuel : Nat) (srcname : String) :
    List String → GermState → Bool → Except String (Bool × GermState)
  | [], st, found => Except.ok (found, st)
  | pkg :: rest, st, found =>
      match aget st.packages pkg with
      | none => extrasBinLoop vc stc fuel srcname rest st found
      | some pr =>
          if pr.source ≠ srcname then
            extrasBinLoop vc stc fuel srcname rest st found
          else
            ebind (dget st.outputs stc.branch) fun out =>
            if pkg ∈ out.all then
              extrasBinLoop vc stc fuel srcname rest st found
            else if (match aget st.hints pkg with
                     | some h => decide (h ≠ "extra")
                     | none => false) then
              extrasBinLoop vc stc fuel srcname rest
                (logMsg st .warning ("Taking the hint: " ++ pkg)) found
            else
              let st := updSeed st (makeSeedName stc.branch "extra")
                (fun s => { s with entries := s.entries ++ [pkg] })
              ebind (addPackage vc stc fuel st "extra" pkg
                ("Generated by " ++ srcname) true false false) fun st =>
              extrasBinLoop vc stc fuel srcname rest st true

/-- The sorted-sources loop of one `add_extras` scan. -/
def extrasSrcLoop (vc : String → String → Int) (stc : SeedStruct)
    (fuel : Nat) :
    List String → GermState → Bool → Except String (Bool × GermState)
  | [], st, found => Except.ok (found, st)
  | srcname :: rest, st, found =>
      ebind (dget st.sources srcname) fun srcrec =>
      ebind (extrasBinLoop vc stc fuel srcname srcrec.binaries st found)
        fun r =>
      extrasSrcLoop vc stc fuel rest r.2 r.1

/-- The `while found` loop of `add_extras`, fuelled (a fixed point is
reached in finitely many scans; exhausting the model's scan fuel is
reported like exhausting the recursion limit). -/
def extrasWhile (vc : String → String → Int) (stc : SeedStruct)
    (fuel : Nat) : Nat → GermState → Except String GermState
  | 0, _ => Except.error "RecursionError"
  | Nat.succ n, st =>
      ebind (dget st.outputs stc.branch) fun out =>
      ebind (extrasSrcLoop vc stc fuel (pysort out.allSrcs) st false)
        fun r =>
      if r.1 then extrasWhile vc stc fuel n r.2 else Except.ok r.2

/-- `Germinator.add_extras`. -/
def addExtras (vc : String → String → Int) (stc : SeedStruct)
    (fuel loopFuel : Nat) (st : GermState) :
    Except String (GermState × SeedStruct) :=
  ebind (dget st.outputs stc.branch) fun _ =>
  let stc' := stc.addExtra
  let st := { st with seeds := (aset st.seeds
    (makeSeedName stc.branch "extra") { name := "extra" }) }
  let st := updOut st stc.branch
    (fun o => { o with seednames := o.seednames ++ ["extra"] })
  ebind (extrasWhile vc stc' fuel loopFuel st) fun st =>
  Except.ok (st, stc')

/-! ## Planting (`Germinator._plant_seed`, `plant_seeds`)

Raw seed text arrives as a list of lines: `Seed` objects fetch their
text over HTTP or bzr, an I/O collaborator outside the sources under
review, and iterating one yields its lines (modelled without the
trailing newlines, which every consuming operation strips). -/

/-- The accumulator of `_plant_seed`'s line loop. -/
structure PlantAcc : Type where
  seedpkgs : List String := []
  seedrecommends : List String := []
  substvars : List (String × List String) := []
deriving Repr

/-- One line of `_plant_seed`'s parsing loop.  Log records at warning
and error level are kept; info records are not. -/
def plantLine (st : GermState) (stc : SeedStruct) (key : String)
    (acc : PlantAcc) (line : String) :
    Except String (GermState × PlantAcc) :=
  if pyStartsWith (pyLower line) "task-seeds:".data then
    let st := updSeed st key (fun s =>
      { s with closeSeeds :=
          (sunion s.closeSeeds (pySplit (pyStrip (pyDrop line 11)))) })
    Except.ok (st, acc)
  else if ¬ pyStartsWith line " * ".data then Except.ok (st, acc)
  else
    let pkg0 := pyStrip (pyDrop line 3)
    let pkg1 :=
      match chFind pkg0.data '#' with
      | some i => strMk (pkg0.data.take i)
      | none => pkg0
    match chFind pkg1.data ':' with
    | some colon =>
        let name := pyLower (strMk (pkg1.data.take colon))
        let values := pySplit (pyStrip (strMk (pkg1.data.drop (colon + 1))))
        let st :=
          if name = "kernel-version" then
            logMsg (updSeed st key (fun s =>
                { s with diKernelVersions :=
                    (sunion s.diKernelVersions values) }))
              .warning ("Allowing d-i kernel versions: " ++
                String.intercalate " " values)
          else if name = "feature" then
            logMsg (updSeed st key (fun s =>
                { s with features := (sunion s.features values) }))
              .warning ("Setting features " ++
                String.intercalate ", " values ++ " for seed " ++ key)
          else if pyEndsWith name "-include".data then
            let includedSeed := pyDropRight name 8
            if (¬ amem st.seeds includedSeed) ∧ includedSeed ≠ "extra" then
              logMsg st .error
                ("Cannot include packages from unknown seed: " ++
                  includedSeed)
            else
              updSeed (logMsg st .warning
                  ("Including packages from " ++ includedSeed ++ ": " ++
                    String.intercalate " " values))
                key (fun s =>
                  { s with includes := (aset s.includes includedSeed
                      (((aget s.includes includedSeed).getD []) ++
                        values)) })
          else if pyEndsWith name "-exclude".data then
            let excludedSeed := pyDropRight name 8
            if (¬ amem st.seeds excludedSeed) ∧ excludedSeed ≠ "extra" then
              logMsg st .error
                ("Cannot exclude packages from unknown seed: " ++
                  excludedSeed)
            else
              updSeed (logMsg st .warning
                  ("Excluding packages from " ++ excludedSeed ++ ": " ++
                    String.intercalate " " values))
                key (fun s =>
                  { s with excludes := (aset s.excludes excludedSeed
                      (((aget s.excludes excludedSeed).getD []) ++
                        values)) })
          else st
        Except.ok (st, { acc with substvars := aset acc.substvars name values })
    | none =>
        let pkg2 := pyStrip pkg1
        ebind
          (if pyEndsWith pkg2 "]".data then
            match chRFind pkg2.data '[' with
            | some start =>
                let archspec :=
                  pySplit (strMk ((pkg2.data.drop (start + 1)).dropLast))
                -- `pkg[:startarchspec - 1]`: for a leading `[` this is
                -- Python's `pkg[:-1]`; the quirk is kept.
                let pkg3 :=
                  if start = 0 then strMk pkg2.data.dropLast
                  else strMk (pkg2.data.take (start - 1))
                let posarch :=
                  archspec.filter (fun x => ¬ pyStartsWith x "!".data)
                let negarch :=
                  (archspec.filter (fun x => pyStartsWith x "!".data)).map
                    (fun x => pyDrop x 1)
                if st.arch ∈ negarch then Except.ok none
                else if posarch ≠ [] ∧ st.arch ∉ posarch then Except.ok none
                else Except.ok (some pkg3)
            | none => Except.ok (some pkg2)
          else Except.ok (some pkg2)) fun pkgOpt =>
        match pkgOpt with
        | none => Except.ok (st, acc)
        | some pkg3 =>
        match pySplit pkg3 with
        | [] => Except.error "IndexError"
        | w :: _ =>
        let pkgB := if pyStartsWith w "!".data then pyDrop w 1 else w
        let isBlack := pyStartsWith w "!".data
        let rp :=
          if pyStartsWith pkgB "(".data ∧ pyEndsWith pkgB ")".data then
            let inner0 := strMk ((pkgB.data.drop 1).dropLast)
            let pkgs0 :=
              filterPackages (st.packages.map Prod.fst) inner0
            let pkgs := if pkgs0 = [] then [inner0] else pkgs0
            -- the Python loop variable leaks: `pkg` is the last element
            (acc.seedrecommends ++ pkgs.foldl
                (fun a p => a ++ substituteSeedVars acc.substvars p) [],
              pkgs.getLastD inner0)
          else (acc.seedrecommends, pkgB)
        let seedrecommends := rp.1
        let pkgC := rp.2
        let sp :=
          if pyStartsWith pkgC "%".data then
            let srcn := pyDrop pkgC 1
            match aget st.sources srcn with
            | some srcrec =>
                (st, srcrec.binaries.filter (fun p => amem st.packages p))
            | none =>
                (logMsg st .warning ("Unknown source package: " ++ srcn),
                  ([] : List String))
          else
            let pkgs0 := filterPackages (st.packages.map Prod.fst) pkgC
            (st, if pkgs0 = [] then [pkgC] else pkgs0)
        let st := sp.1
        let pkgs := sp.2
        if isBlack then
          let st := pkgs.foldl (fun st p =>
            updSeed st key (fun s =>
              { s with blacklist :=
                  (sunion s.blacklist
                    (substituteSeedVars acc.substvars p)) })) st
          Except.ok (st, { acc with seedrecommends := seedrecommends })
        else
          let seedpkgs := pkgs.foldl
            (fun a p => a ++ substituteSeedVars acc.substvars p)
            acc.seedpkgs
          Except.ok (st,
            { acc with
              seedpkgs := seedpkgs
              seedrecommends := seedrecommends })

/-- The line loop of `_plant_seed`. -/
def plantLines (stc : SeedStruct) (key : String) :
    List String → GermState → PlantAcc →
    Except String (GermState × PlantAcc)
  | [], st, acc => Except.ok (st, acc)
  | line :: rest, st, acc =>
      ebind (plantLine st stc key acc line) fun r =>
      plantLines stc key rest r.1 r.2

/-- The virtual-package expansion of `_plant_seed`'s planting loop. -/
def virtLoop (st : GermState) (stc : SeedStruct) (key seedname : String)
    (seedrecommends : List String) :
    List String → GermState → Except String GermState
  | [], st' => Except.ok st'
  | vpkg :: rest, st' =>
      ebind (alreadySeeded st' stc seedname vpkg) fun dup =>
      if dup then virtLoop st stc key seedname seedrecommends rest st'
      else
        ebind (dget st'.seeds key) fun sd =>
        ebind (isPruned st' sd vpkg) fun pruned =>
        if pruned then virtLoop st stc key seedname seedrecommends rest st'
        else
          let st' :=
            if vpkg ∈ seedrecommends then
              updSeed st' key (fun s =>
                { s with recommendsEntries := s.recommendsEntries ++ [vpkg] })
            else
              updSeed st' key (fun s =>
                { s with entries := s.entries ++ [vpkg] })
          virtLoop st stc key seedname seedrecommends rest st'

/-- The planting loop of `_plant_seed` over the accumulated package
list. -/
def plantPkgLoop (stc : SeedStruct) (key seedname : String)
    (seedrecommends : List String) :
    List String → GermState → Except String GermState
  | [], st => Except.ok st
  | pkg :: rest, st =>
      if (match aget st.hints pkg with
          | some h => decide (h ≠ seedname)
          | none => false) then
        plantPkgLoop stc key seedname seedrecommends rest
          (logMsg st .warning ("Taking the hint: " ++ pkg))
      else if amem st.packages pkg then
        ebind (alreadySeeded st stc seedname pkg) fun dup =>
        if dup then
          plantPkgLoop stc key seedname seedrecommends rest
            (logMsg st .warning ("Duplicated seed: " ++ pkg))
        else
          ebind (dget st.seeds key) fun sd =>
          ebind (isPruned st sd pkg) fun pruned =>
          if pruned then
            plantPkgLoop stc key seedname seedrecommends rest
              (logMsg st .warning ("Pruned " ++ pkg ++ " from " ++ seedname))
          else
            let st :=
              if pkg ∈ seedrecommends then
                updSeed st key (fun s =>
                  { s with recommendsEntries :=
                      s.recommendsEntries ++ [pkg] })
              else
                updSeed st key (fun s => { s with entries := s.entries ++ [pkg] })
            plantPkgLoop stc key seedname seedrecommends rest st
      else if amem st.provides pkg then
        ebind (virtLoop st stc key seedname seedrecommends
          ((aget st.provides pkg).getD []) st) fun st =>
        plantPkgLoop stc key seedname seedrecommends rest st
      else
        plantPkgLoop stc key seedname seedrecommends rest
          (logMsg st .error ("Unknown " ++ seedname ++ " package: " ++ pkg))

/-- The hints loop closing `_plant_seed`. -/
def plantHintLoop (stc : SeedStruct) (key seedname : String)
    (seedrecommends : List String) :
    List (String × String) → GermState → Except String GermState
  | [], st => Except.ok st
  | (hpkg, hseed) :: rest, st =>
      if hseed = seedname then
        ebind (alreadySeeded st stc seedname hpkg) fun dup =>
        if dup then plantHintLoop stc key seedname seedrecommends rest st
        else if amem st.packages hpkg then
          let st :=
            if hpkg ∈ seedrecommends then
              updSeed st key (fun s =>
                { s with recommendsEntries := s.recommendsEntries ++ [hpkg] })
            else
              updSeed st key (fun s => { s with entries := s.entries ++ [hpkg] })
          plantHintLoop stc key seedname seedrecommends rest st
        else
          plantHintLoop stc key seedname seedrecommends rest
            (logMsg st .error ("Unknown hinted package: " ++ hpkg))
      else plantHintLoop stc key seedname seedrecommends rest st

/-- The chain walk of `GerminatedSeed.__cmp__`: names must agree
pairwise and no seed seen along the chain may have had a blacklist
hit. -/
def chainClear (st : GermState) (stc : SeedStruct) :
    List (String × String) → Bool
  | [] => true
  | (l, r) :: rest =>
      if l ≠ r then false
      else
        let lb := match aget st.seeds (makeSeedName stc.branch l) with
          | some s => s.blacklistSeen
          | none => false
        let rb := match aget st.seeds (makeSeedName stc.branch r) with
          | some s => s.blacklistSeen
          | none => false
        if lb || rb then false else chainClear st stc rest

/-- `GerminatedSeed.__cmp__` as an equality test, specialised to the
one seed structure this embedding runs (both compared seeds therefore
share `stc` and its branch). -/
def seedsEqual (st : GermState) (stc : SeedStruct) (sd other : GSeed) :
    Bool :=
  if (stc.innerSeeds sd.name).length ≠ (stc.innerSeeds other.name).length
    then false
  else if ¬ chainClear st stc
      ((stc.innerSeeds sd.name).zip (stc.innerSeeds other.name)) then false
  else if sd.blacklistSeen || other.blacklistSeen then false
  else true

/-- `Germinator._plant_seed`. -/
def plantSeed (st : GermState) (stc : SeedStruct) (seedname : String)
    (rawSeed : List String) : Except String GermState :=
  let sd0 : GSeed := { name := seedname }
  let key := makeSeedName stc.branch seedname
  match st.seeds.find? (fun kv => seedsEqual st stc sd0 kv.2) with
  | some kv =>
      -- already planted: share it (`copy` resets the blacklist flag and
      -- asserts the shared seed has been grown)
      if ¬ kv.2.grown then Except.error "AssertionError"
      else
        let st := { st with seeds := (aset st.seeds key
          { kv.2 with blacklistSeen := false, grown := true }) }
        ebind (dget st.outputs stc.branch) fun _ =>
        Except.ok (updOut st stc.branch (fun o =>
          { o with seednames := o.seednames ++ [seedname] }))
  | none =>
      let st := { st with seeds := (aset st.seeds key sd0) }
      ebind (dget st.outputs stc.branch) fun _ =>
      let st := updOut st stc.branch (fun o =>
        { o with seednames := o.seednames ++ [seedname] })
      ebind (plantLines stc key rawSeed st {}) fun r =>
      ebind (plantPkgLoop stc key seedname r.2.seedrecommends
        r.2.seedpkgs r.1) fun st =>
      plantHintLoop stc key seedname r.2.seedrecommends st.hints st

/-- The seed loop of `plant_seeds`, reading each seed's text. -/
def plantAll (stc : SeedStruct) (rawSeeds : List (String × List String)) :
    List String → GermState → Except String GermState
  | [], st => Except.ok st
  | n :: rest, st =>
      ebind (dget rawSeeds n) fun raw =>
      ebind (plantSeed st stc n raw) fun st =>
      plantAll stc rawSeeds rest st

/-- `Germinator.plant_seeds`: create the per-structure output if
needed, apply any seed restriction, and plant every seed in order.
The (possibly limited) structure is returned alongside the state, as
`SeedStructure.limit` mutates the structure in place. -/
def plantSeeds (st : GermState) (stc : SeedStruct)
    (rawSeeds : List (String × List String))
    (limitTo : Option (List String)) :
    Except String (GermState × SeedStruct) :=
  let st :=
    if amem st.outputs stc.branch then st
    else { st with outputs := (aset st.outputs stc.branch {}) }
  let stc :=
    match limitTo with
    | some seeds => stc.limit seeds
    | none => stc
  ebind (plantAll stc rawSeeds stc.names st) fun st =>
  Except.ok (st, stc)

/-! ## Concrete germination runs (C1, C2, C3) -/

/-- Parse an archive into a fresh germinator, plant a seed structure
and grow it: the pipeline under test in the planting scenarios. -/
def plantAndGrow (vc : String → String → Int) (stc : SeedStruct)
    (fuel : Nat) (arch : String) (items : List ArchiveItem)
    (rawSeeds : List (String × List String)) : Except String GermState :=
  ebind (plantSeeds (parseArchive vc (initState arch) items) stc rawSeeds
    none) fun p =>
  grow vc p.2 fuel p.1

/-- A two-seed structure: `desktop` inherits `base`. -/
def twoSeedStc : SeedStruct :=
  { branch := none
    names := ["base", "desktop"]
    inherit := [("base", []), ("desktop", ["base"])]
    supported := "desktop" }

/-- Archive for the rescue scenario: two binaries of one source. -/
def c1Items : List ArchiveItem :=
  [ArchiveItem.packages
     { package := "mainpkg", version := "1", source := some "src1" },
   ArchiveItem.packages
     { package := "libfoo", version := "1", source := some "src1" },
   ArchiveItem.sources
     { package := "src1", version := "1",
       binaries := some ["mainpkg", "libfoo"] }]

/-- Seed texts for the rescue scenario: `base` pulls in `mainpkg` and
asks to rescue `libfoo` from the `extra` pool; `desktop` (strictly
outer) lists `libfoo` literally. -/
def c1Raw : List (String × List String) :=
  [("base", [" * mainpkg", " * extra-include: libfoo"]),
   ("desktop", [" * libfoo"])]

/-- The rescue scenario run. -/
def c1Run : Except String GermState :=
  plantAndGrow vcLen twoSeedStc 30 "i386" c1Items c1Raw

/-- The same run with `desktop` listing nothing: the rescue then has no
strictly-outer literal to promote and completes. -/
def c1RunBenign : Except String GermState :=
  plantAndGrow vcLen twoSeedStc 30 "i386" c1Items
    [("base", [" * mainpkg", " * extra-include: libfoo"]),
     ("desktop", [])]

/-- Archive for the blacklist scenarios: one binary `bad` from source
`srcb`. -/
def c3Items : List ArchiveItem :=
  [ArchiveItem.packages
     { package := "bad", version := "1", source := some "srcb" },
   ArchiveItem.sources
     { package := "srcb", version := "1", binaries := some ["bad"] }]

/-- The spec's S4 scenario: the blacklist entry `!bad` sits in `base`,
the inherited-FROM seed, while `desktop` lists `bad`. -/
def c3RunSpec : Except String GermState :=
  plantAndGrow vcLen twoSeedStc 30 "i386" c3Items
    [("base", [" * !bad"]), ("desktop", [" * bad"])]

/-- The flipped scenario: the blacklist entry `!bad` sits in `desktop`,
the seed that INHERITS `base`, while `base` lists `bad`. -/
def c3RunFlipped : Except String GermState :=
  plantAndGrow vcLen twoSeedStc 30 "i386" c3Items
    [("base", [" * bad"]), ("desktop", [" * !bad"])]

/-- Is a package in any entry, dependency or build collection of any
seed of the state? -/
def pkgAnywhere (st : GermState) (pkg : String) : Bool :=
  st.seeds.any (fun kv =>
    bmem pkg kv.2.entries || bmem pkg kv.2.recommendsEntries ||
    bmem pkg kv.2.depends || bmem pkg kv.2.buildDepends ||
    bmem pkg kv.2.build || bmem pkg kv.2.notBuild)

/-- Evaluate a boolean observation on the final state of a run
(`false` when the run aborted). -/
def eTest {α : Type} (x : Except String α) (p : α → Bool) : Bool :=
  match x with
  | Except.ok a => p a
  | Except.error _ => false

/-- C1: the claimed promotion via rescue does not happen.  In the
concrete rescue run, `libfoo` matches `base`'s include pattern for the
`extra` pool, is not yet in the global `all` set, and is a literal
entry of the strictly-outer seed `desktop`; `_rescue_includes` then
executes `seed._entries.remove(pkg)` on the SUBJECT seed `base`, whose
entry list does not contain `libfoo`, so the run aborts with
`ValueError` instead of removing the entry from `desktop` and adding
the package to `base`.  The same pipeline completes when the
strictly-outer literal is absent, isolating the promotion step as the
point of failure. -/
theorem c1_rescue_promotion_bug :
    c1Run = Except.error "ValueError" ∧ eIsOk c1RunBenign = true :=
  ⟨rfl, rfl⟩

/-- C2: the never-throws propagation policy is violated.  The rescue
run's inputs are accepted by planting (both seeds plant, the archive
parses), the triggering condition — a rescued package that is listed
in another seed — is a data-level defect named by the policy, yet
`grow` raises `ValueError` instead of logging and continuing; the
benign variant of the same pipeline completes, showing the abort is
specific to that defect. -/
theorem c2_core_throws_on_data_defect :
    eIsOk c1Run = false ∧ eIsOk c1RunBenign = true := ⟨rfl, rfl⟩

/-- C3 counterexample: in the spec's S4 scenario (blacklist literal
`!bad` in `base`, `bad` listed in `desktop`, which inherits `base`),
germination completes but `bad` remains an entry of `desktop`, reaches
the structure's global output, and no error is logged: `_weed_blacklist`
consults the blacklists of the seed itself and of the seeds that
inherit it, so a blacklist in `base` never reaches `desktop`. -/
theorem c3_counterexample :
    eTest c3RunSpec (fun st =>
      bmem "bad" (((aget st.seeds "None/desktop").getD
        { name := "" }).entries) &&
      bmem "bad" (((aget st.outputs none).getD {}).all) &&
      st.log.all (fun r => r.1 != LogLevel.error)) = true := rfl

/-- C3 amended: a blacklist entry `!bad` in seed B excludes `bad` from
B and from every seed B INHERITS (its inner seeds), not from the seeds
inheriting B.  With `!bad` in `desktop` and `bad` listed in `base`
(which `desktop` inherits), after grow the package `bad` is in no
seed's entry, recommends, depends, build-depends or build collections,
is absent from the global output, an error record is logged, and
germination completes normally. -/
theorem c3_blacklist_amended :
    eTest c3RunFlipped (fun st =>
      !pkgAnywhere st "bad" &&
      !bmem "bad" (((aget st.outputs none).getD {}).all) &&
      st.log.any (fun r => r.1 == LogLevel.error)) = true := rfl

/-! ## C8: extras -/

def pyRStrip (s : String) : String :=
  strMk ((s.data.reverse.dropWhile isPySpace).reverse)

/-- `Germinator.parse_hints`. -/
def parseHints (st : GermState) : List String → GermState
  | [] => st
  | line :: rest =>
      if pyStartsWith line "#".data ∨ (pyRStrip line).data = [] then
        parseHints st rest
      else
        match pySplit (pyRStrip line) with
        | [w0, w1] => parseHints { st with hints := (aset st.hints w1 w0) } rest
        | _ => parseHints st rest

/-- A single-seed structure. -/
def oneSeedStc : SeedStruct :=
  { branch := none
    names := ["base"]
    inherit := [("base", [])]
    supported := "base" }

/-- Archive for the extras counterexample: binary `q` claims source
`s`, but `s`'s Sources stanza does not list `q` among its binaries. -/
def c8Items : List ArchiveItem :=
  [ArchiveItem.packages
     { package := "mainpkg", version := "1", source := some "s" },
   ArchiveItem.packages
     { package := "q", version := "1", source := some "s" },
   ArchiveItem.sources
     { package := "s", version := "1", binaries := some ["mainpkg"] }]

def c8Raw : List (String × List String) :=
  [("base", [" * mainpkg"])]

/-- Plant, grow and run `add_extras` on the counterexample data. -/
def c8Run : Except String (GermState × SeedStruct) :=
  ebind (plantSeeds (parseArchive vcLen (initState "i386") c8Items)
    oneSeedStc c8Raw none) fun p =>
  ebind (grow vcLen p.2 30 p.1) fun st =>
  addExtras vcLen p.2 30 10 st

/-- C8 counterexample: `add_extras` only scans each selected source's
DECLARED binaries, so after it returns the archive still holds the
binary `q`, absent from the global `all`, whose source `s` is in
`all_srcs`, with no hint at all — the claimed fixed point fails for
binaries missing from their source's `Binaries` list. -/
theorem c8_counterexample :
    eTest c8Run (fun r =>
      bmem "s" (((aget r.1.outputs none).getD {}).allSrcs) &&
      (match aget r.1.packages "q" with
       | some pr => decide (pr.source = "s")
       | none => false) &&
      !bmem "q" (((aget r.1.outputs none).getD {}).all) &&
      !amem r.1.hints "q") = true := rfl

/-- Archive for the amended witness: `q` IS declared by `s`, and a
hints file assigns it elsewhere. -/
def c8bItems : List ArchiveItem :=
  [ArchiveItem.packages
     { package := "mainpkg", version := "1", source := some "s" },
   ArchiveItem.packages
     { package := "q", version := "1", source := some "s" },
   ArchiveItem.sources
     { package := "s", version := "1",
       binaries := some ["mainpkg", "q"] }]

def eGetD {α : Type} (x : Except String α) (d : α) : α :=
  match x with
  | Except.ok a => a
  | Except.error _ => d

/-- The grown state feeding `add_extras` in the amended witness run. -/
def c8bPre : GermState :=
  eGetD
    (ebind (plantSeeds
        (parseArchive vcLen (parseHints (initState "i386") ["other  q"])
          c8bItems) oneSeedStc c8Raw none) fun p =>
      grow vcLen p.2 30 p.1)
    (initState "i386")

/-- The result of `add_extras` in the amended witness run. -/
def c8bRes : GermState × SeedStruct :=
  eGetD (addExtras vcLen oneSeedStc 30 10 c8bPre)
    (initState "i386", oneSeedStc)

/-- The state fields the extras scan reads, preserved by a scan that
selects nothing. -/
def SameCore (st st' : GermState) : Prop :=
  st'.packages = st.packages ∧ st'.outputs = st.outputs ∧
    st'.hints = st.hints ∧ st'.sources = st.sources

theorem sameCore_refl (st : GermState) : SameCore st st :=
  ⟨rfl, rfl, rfl, rfl⟩

theorem sameCore_trans {a b c : GermState} (h1 : SameCore a b)
    (h2 : SameCore b c) : SameCore a c :=
  ⟨h2.1.trans h1.1, h2.2.1.trans h1.2.1, h2.2.2.1.trans h1.2.2.1,
    h2.2.2.2.trans h1.2.2.2⟩

/-- Why the extras scan passes over a package of a scanned source:
already selected, or hinted to some other seed. -/
def SkipProp (branch : Option String) (st : GermState)
    (srcname pkg : String) : Prop :=
  ∀ pr, aget st.packages pkg = some pr → pr.source = srcname →
    (∃ out, aget st.outputs branch = some out ∧ pkg ∈ out.all) ∨
    (∃ h, aget st.hints pkg = some h ∧ h ≠ "extra")

theorem skipProp_congr (branch : Option String) (st st2 : GermState)
    (srcname pkg : String) (hpk : st2.packages = st.packages)
    (hout : st2.outputs = st.outputs) (hh : st2.hints = st.hints)
    (h : SkipProp branch st srcname pkg) :
    SkipProp branch st2 srcname pkg := by
  intro pr hpr hsrc
  rw [hpk] at hpr
  rw [hout, hh]
  exact h pr hpr hsrc

/-- A binaries scan that reports nothing found skipped every package
for a recorded reason and left the read fields unchanged. -/
theorem extrasBinLoop_spec (vc : String → String → Int)
    (stc : SeedStruct) (fuel : Nat) (srcname : String) :
    ∀ pkgs st found b st',
      extrasBinLoop vc stc fuel srcname pkgs st found =
        Except.ok (b, st') →
      b = true ∨ (found = false ∧ SameCore st st' ∧
        ∀ pkg ∈ pkgs, SkipProp stc.branch st srcname pkg) := by
  intro pkgs
  induction pkgs with
  | nil =>
      intro st found b st' h
      simp only [extrasBinLoop, Except.ok.injEq, Prod.mk.injEq] at h
      obtain ⟨h1, h2⟩ := h
      cases found with
      | true => exact Or.inl h1.symm
      | false =>
          subst h2
          exact Or.inr ⟨rfl, sameCore_refl st, by intro pkg hp; cases hp⟩
  | cons pkg rest ih =>
      intro st found b st' h
      simp only [extrasBinLoop] at h
      cases hp : aget st.packages pkg with
      | none =>
          simp only [hp] at h
          rcases ih st found b st' h with hres | ⟨hf, hsc, hsk⟩
          · exact Or.inl hres
          · refine Or.inr ⟨hf, hsc, ?_⟩
            intro p hpm
            rcases List.mem_cons.mp hpm with rfl | hpm
            · intro pr hpr
              rw [hp] at hpr
              cases hpr
            · exact hsk p hpm
      | some pr =>
          simp only [hp] at h
          by_cases hs : pr.source = srcname
          · rw [if_neg (not_not_intro hs)] at h
            cases ho : aget st.outputs stc.branch with
            | none =>
                simp only [dget, ho, ebind] at h
                cases h
            | some out =>
                simp only [dget, ho, ebind] at h
                by_cases hall : pkg ∈ out.all
                · rw [if_pos hall] at h
                  rcases ih st found b st' h with hres | ⟨hf, hsc, hsk⟩
                  · exact Or.inl hres
                  · refine Or.inr ⟨hf, hsc, ?_⟩
                    intro p hpm
                    rcases List.mem_cons.mp hpm with rfl | hpm
                    · intro pr' hpr' hsrc'
                      exact Or.inl ⟨out, ho, hall⟩
                    · exact hsk p hpm
                · rw [if_neg hall] at h
                  cases hh : aget st.hints pkg with
                  | none =>
                      simp only [hh] at h
                      rw [if_neg (by simp)] at h
                      cases ha : addPackage vc stc fuel
                          (updSeed st (makeSeedName stc.branch "extra")
                            (fun s => { s with entries := s.entries ++ [pkg] }))
                          "extra" pkg ("Generated by " ++ srcname)
                          true false false with
                      | error e =>
                          rw [ha] at h
                          simp at h
                      | ok st2 =>
                          rw [ha] at h
                          dsimp only at h
                          rcases ih st2 true b st' h with hres | ⟨hf, _, _⟩
                          · exact Or.inl hres
                          · cases hf
                  | some hv =>
                      simp only [hh] at h
                      by_cases hve : hv = "extra"
                      · rw [if_neg (by simp [hve])] at h
                        cases ha : addPackage vc stc fuel
                            (updSeed st (makeSeedName stc.branch "extra")
                              (fun s =>
                                { s with entries := s.entries ++ [pkg] }))
                            "extra" pkg ("Generated by " ++ srcname)
                            true false false with
                        | error e =>
                            rw [ha] at h
                            simp at h
                        | ok st2 =>
                            rw [ha] at h
                            dsimp only at h
                            rcases ih st2 true b st' h with hres | ⟨hf, _, _⟩
                            · exact Or.inl hres
                            · cases hf
                      · rw [if_pos (by simp [hve])] at h
                        rcases ih (logMsg st .warning
                            ("Taking the hint: " ++ pkg)) found b st' h with
                          hres | ⟨hf, hsc, hsk⟩
                        · exact Or.inl hres
                        · refine Or.inr ⟨hf, hsc, ?_⟩
                          intro p hpm
                          rcases List.mem_cons.mp hpm with rfl | hpm
                          · intro pr' hpr' hsrc'
                            exact Or.inr ⟨hv, hh, hve⟩
                          · exact hsk p hpm
          · rw [if_pos hs] at h
            rcases ih st found b st' h with hres | ⟨hf, hsc, hsk⟩
            · exact Or.inl hres
            · refine Or.inr ⟨hf, hsc, ?_⟩
              intro p hpm
              rcases List.mem_cons.mp hpm with rfl | hpm
              · intro pr' hpr' hsrc'
                rw [hp] at hpr'
                exact absurd ((Option.some.inj hpr') ▸ hsrc') hs
              · exact hsk p hpm

/-- A sources scan that reports nothing found visited every source and
skipped each of its declared binaries. -/
theorem extrasSrcLoop_spec (vc : String → String → Int)
    (stc : SeedStruct) (fuel : Nat) :
    ∀ srcs st found b st',
      extrasSrcLoop vc stc fuel srcs st found = Except.ok (b, st') →
      b = true ∨ (found = false ∧ SameCore st st' ∧
        ∀ src ∈ srcs, ∃ srcrec, aget st.sources src = some srcrec ∧
          ∀ pkg ∈ srcrec.binaries, SkipProp stc.branch st src pkg) := by
  intro srcs
  induction srcs with
  | nil =>
      intro st found b st' h
      simp only [extrasSrcLoop, Except.ok.injEq, Prod.mk.injEq] at h
      obtain ⟨h1, h2⟩ := h
      cases found with
      | true => exact Or.inl h1.symm
      | false =>
          subst h2
          exact Or.inr ⟨rfl, sameCore_refl st, by intro s hs; cases hs⟩
  | cons src rest ih =>
      intro st found b st' h
      simp only [extrasSrcLoop] at h
      cases hsrc : aget st.sources src with
      | none =>
          simp only [dget, hsrc, ebind] at h
          cases h
      | some srcrec =>
          simp only [dget, hsrc, ebind] at h
          cases hb : extrasBinLoop vc stc fuel src srcrec.binaries st found
            with
          | error e =>
              rw [hb] at h
              dsimp only at h
              cases h
          | ok r =>
              rw [hb] at h
              dsimp only at h
              rcases ih r.2 r.1 b st' h with hres | ⟨hf, hsc, hsk⟩
              · exact Or.inl hres
              · rcases extrasBinLoop_spec vc stc fuel src srcrec.binaries st
                    found r.1 r.2 hb with hres2 | ⟨hf2, hsc2, hsk2⟩
                · simp [hf] at hres2
                · refine Or.inr ⟨hf2, sameCore_trans hsc2 hsc, ?_⟩
                  intro s hsm
                  rcases List.mem_cons.mp hsm with rfl | hsm
                  · exact ⟨srcrec, hsrc, hsk2⟩
                  · obtain ⟨sr2, hsr2, hskp⟩ := hsk s hsm
                    rw [hsc2.2.2.2] at hsr2
                    refine ⟨sr2, hsr2, ?_⟩
                    intro p hpm
                    exact skipProp_congr stc.branch r.2 st s p hsc2.1.symm
                      hsc2.2.1.symm hsc2.2.2.1.symm (hskp p hpm)

/-- When the extras loop reaches its fixed point, every declared binary
of every selected source has a recorded skip reason in the final
state. -/
theorem extrasWhile_fixed (vc : String → String → Int)
    (stc : SeedStruct) (fuel : Nat) :
    ∀ n st st', extrasWhile vc stc fuel n st = Except.ok st' →
      ∀ out, aget st'.outputs stc.branch = some out →
      ∀ src ∈ out.allSrcs, ∃ srcrec,
        aget st'.sources src = some srcrec ∧
        ∀ pkg ∈ srcrec.binaries, SkipProp stc.branch st' src pkg := by
  intro n
  induction n with
  | zero =>
      intro st st' h
      cases h
  | succ n ihn =>
      intro st st' h
      simp only [extrasWhile] at h
      cases ho : aget st.outputs stc.branch with
      | none =>
          simp only [dget, ho, ebind] at h
          cases h
      | some out0 =>
          simp only [dget, ho, ebind] at h
          cases hs : extrasSrcLoop vc stc fuel (pysort out0.allSrcs) st
            false with
          | error e =>
              rw [hs] at h
              dsimp only at h
              cases h
          | ok r =>
              rw [hs] at h
              dsimp only at h
              by_cases hr : r.1 = true
              · rw [if_pos hr] at h
                exact ihn r.2 st' h
              · rw [if_neg hr] at h
                have hst : r.2 = st' := by
                  injection h
                subst hst
                rcases extrasSrcLoop_spec vc stc fuel (pysort out0.allSrcs)
                    st false r.1 r.2 hs with hres | ⟨-, hsc, hsk⟩
                · exact absurd hres hr
                · intro out hout src hsrcm
                  rw [hsc.2.1, ho] at hout
                  cases Option.some.inj hout
                  obtain ⟨srcrec, hsr, hskp⟩ := hsk src
                    ((mem_pysort src out0.allSrcs).mpr hsrcm)
                  rw [← hsc.2.2.2] at hsr
                  refine ⟨srcrec, hsr, ?_⟩
                  intro p hpm
                  exact skipProp_congr stc.branch st r.2 src p hsc.1
                    hsc.2.1 hsc.2.2.1 (hskp p hpm)

theorem addExtra_branch (s : SeedStruct) :
    (SeedStruct.addExtra s).branch = s.branch := by
  unfold SeedStruct.addExtra
  split <;> rfl

/-- C8 amended: fixed-point extras restricted to declared binaries.
After `add_extras` returns, no binary package that its source's
Sources stanza DECLARES (`add_extras` only scans each selected
source's `Binaries` field) is both absent from the structure's global
`all` set and unhinted, when its source is in `all_srcs`: any such
remaining binary carries a hint naming a seed other than `extra`. -/
theorem c8_fixed_point_extras_amended (vc : String → String → Int)
    (stc : SeedStruct) (fuel loopFuel : Nat) (st st' : GermState)
    (stc' : SeedStruct)
    (h : addExtras vc stc fuel loopFuel st = Except.ok (st', stc')) :
    ∀ out, aget st'.outputs stc.branch = some out →
    ∀ srcname ∈ out.allSrcs, ∀ srcrec,
      aget st'.sources srcname = some srcrec →
    ∀ pkg ∈ srcrec.binaries, ∀ pr, aget st'.packages pkg = some pr →
    pr.source = srcname → pkg ∉ out.all →
    ∃ hint, aget st'.hints pkg = some hint ∧ hint ≠ "extra" := by
  unfold addExtras at h
  cases ho : aget st.outputs stc.branch with
  | none =>
      simp only [dget, ho, ebind] at h
      cases h
  | some out0 =>
      simp only [dget, ho, ebind] at h
      split at h
      · cases h
      · next a heq =>
          injection h with h2
          obtain ⟨ha, hstc⟩ := Prod.mk.injEq .. |>.mp h2
          subst ha
          intro out hout srcname hsrcm srcrec hsrcrec pkg hpkg pr hpr hps
            hnall
          have hfix := extrasWhile_fixed vc (SeedStruct.addExtra stc) fuel
            loopFuel _ a heq
          rw [addExtra_branch] at hfix
          obtain ⟨srcrec0, hsr0, hskp⟩ := hfix out hout srcname hsrcm
          rw [Option.some.inj (hsr0.symm.trans hsrcrec)] at hskp
          rcases hskp pkg hpkg pr hpr hps with ⟨out2, hout2, hmem⟩ | hres
          · rw [Option.some.inj (hout2.symm.trans hout)] at hmem
            exact absurd hmem hnall
          · exact hres

/-- Instantiation of the amended C8 theorem on the concrete run: `q`
is declared by source `s`, which is selected, yet `q` stays out of the
output — because a hint assigns it elsewhere. -/
theorem c8_fixed_point_extras_amended_witness :
    ∃ hint, aget c8bRes.1.hints "q" = some hint ∧ hint ≠ "extra" := by
  refine c8_fixed_point_extras_amended vcLen oneSeedStc 30 10 c8bPre
    c8bRes.1 c8bRes.2 rfl ((aget c8bRes.1.outputs none).getD {}) rfl
    "s" (by decide) ((aget c8bRes.1.sources "s").getD
      { version := "", buildDepends := [], buildDependsIndep := [],
        binaries := [] }) rfl "q" (by decide)
    ((aget c8bRes.1.packages "q").getD
      { sectionField := "", version := "", source := "", provides := [],
        preDepends := [], depends := [], recommends := [],
        kernelVersion := "" }) rfl (by decide) (by decide)

end Germinate
